import Mathlib

/-!
# Verification of the identity-reconciliation core (`src/identityService.ts`)

This file gives a shallow embedding of the identity-resolution pipeline of
`identityService.ts` and proves or refutes the frozen claims about it.

The persistent store (Prisma/PostgreSQL `contacts` table) is modelled as a
list of rows plus the next `SERIAL` id.  Each Prisma call used by the code
(`findMany`, `findUnique`, `create`, `update`, `updateMany`) becomes a pure
function on that state.  Timestamps are naturals; `new Date()` at request
time is a parameter `now`.  JavaScript peculiarities that are visible in the
source are modelled faithfully:

* `email?: string` parameters are `Option String` (`none` = `undefined`),
  row fields are `Option String` (`none` = SQL `NULL`);
* `c.email === email` (a `string | null` against a `string | undefined`) is
  `jsStrictEq`: true only when both sides are present and equal strings;
* truthiness tests such as `if (email)` and `if (primary.email)` treat the
  empty string as absent (`isTruthy`);
* `if (contact.linkedId)` treats the id `0` as absent (`jsTruthyId`);
* the graph-expansion `while` loop with `push`/`pop` is a LIFO stack; the
  embedding runs the same stack with an explicit fuel argument so that
  termination is a provable statement rather than an assumption.
-/

inductive Precedence where
  | primary
  | secondary
deriving Repr, DecidableEq

structure Contact where
  id : Nat
  email : Option String
  phoneNumber : Option String
  linkedId : Option Nat
  linkPrecedence : Precedence
  createdAt : Nat
  updatedAt : Nat
  deletedAt : Option Nat
deriving Repr, DecidableEq

structure DB where
  rows : List Contact
  nextId : Nat
deriving Repr, DecidableEq

structure IdentifyResponse where
  primaryContactId : Nat
  emails : List String
  phoneNumbers : List String
  secondaryContactIds : List Nat
deriving Repr, DecidableEq

/-- JavaScript truthiness of a `string | undefined` / `string | null` value:
`undefined`, `null` and `""` are falsy. -/
def isTruthy : Option String → Bool
  | none => false
  | some s => s != ""

/-- JavaScript truthiness of a `number | null` id value: `null` and `0` are falsy. -/
def jsTruthyId : Option Nat → Bool
  | none => false
  | some n => n != 0

/-- JavaScript strict equality between a row field (`string | null`) and a
request parameter (`string | undefined`): true only when both are strings
and equal (`null === undefined` is `false`). -/
def jsStrictEq (a b : Option String) : Bool :=
  match a, b with
  | some x, some y => x == y
  | _, _ => false

/-- A row is not tombstoned. -/
def Alive (c : Contact) : Prop := c.deletedAt = none

/-- Stable insertion used to model `orderBy: { createdAt: 'asc' }`: an element
is placed before the first strictly later element, so rows with equal
`createdAt` keep their store order. -/
def insertByCreated (x : Contact) : List Contact → List Contact
  | [] => [x]
  | y :: ys => if y.createdAt < x.createdAt then y :: insertByCreated x ys else x :: y :: ys

/-- `ORDER BY createdAt ASC` as a stable sort of the store order. -/
def sortByCreated (l : List Contact) : List Contact :=
  l.foldr insertByCreated []

/-- The `WHERE` clause of the Step-1 `findMany`: the `OR` list keeps only the
clauses whose parameter is truthy (`email ? { email } : {}`), and an empty
`OR` matches nothing. -/
def contactMatches (email phoneNumber : Option String) (c : Contact) : Bool :=
  (isTruthy email && c.email == email) || (isTruthy phoneNumber && c.phoneNumber == phoneNumber)

/-- Step 1 of `identifyContact`: all non-deleted rows matching either supplied
identifier, in `createdAt` order. -/
def findManyMatches (db : DB) (email phoneNumber : Option String) : List Contact :=
  sortByCreated (db.rows.filter (fun c => contactMatches email phoneNumber c && c.deletedAt == none))

/-- `prisma.contact.findUnique({ where: { id } })` — note: no `deletedAt` filter. -/
def findUniqueContact (db : DB) (cid : Nat) : Option Contact :=
  db.rows.find? (fun c => c.id == cid)

/-- `prisma.contact.findMany({ where: { linkedId: pid, deletedAt: null } })`. -/
def findSecondariesOf (db : DB) (pid : Nat) : List Contact :=
  db.rows.filter (fun c => c.linkedId == some pid && c.deletedAt == none)

/-- The final fetch of `getAllRelatedContacts`: rows whose id was collected,
non-deleted, in `createdAt` order. -/
def fetchByIds (db : DB) (ids : List Nat) : List Contact :=
  sortByCreated (db.rows.filter (fun c => ids.contains c.id && c.deletedAt == none))

/-- One `prisma.contact.create` call: the new row gets the next `SERIAL` id and
`createdAt = updatedAt = now` (`@updatedAt` / column default). -/
def createContact (db : DB) (now : Nat) (email phoneNumber : Option String)
    (linkedId : Option Nat) (prec : Precedence) : Contact × DB :=
  let c : Contact :=
    { id := db.nextId, email := email, phoneNumber := phoneNumber, linkedId := linkedId,
      linkPrecedence := prec, createdAt := now, updatedAt := now, deletedAt := none }
  (c, { rows := db.rows ++ [c], nextId := db.nextId + 1 })

/-- The parent push of one loop iteration: `if (contact.linkedId)` (JS
truthiness: `0` and `null` are falsy), fetch that id with `findUnique`
(no tombstone filter), push it unless already processed. -/
def expandParent (db : DB) (processed : List Nat) (c : Contact) : List Contact :=
  match c.linkedId with
  | some lid =>
    if lid != 0 then
      match findUniqueContact db lid with
      | some pr => if pr.id ∈ processed then [] else [pr]
      | none => []
    else []
  | none => []

/-- The children push of one loop iteration: for a primary, all non-deleted
contacts linked to it that are not yet processed. -/
def expandChildren (db : DB) (processed : List Nat) (c : Contact) : List Contact :=
  if c.linkPrecedence = Precedence.primary then
    (findSecondariesOf db c.id).filter (fun s => decide (s.id ∉ processed))
  else []

/-- The `while (toProcess.length > 0)` loop of `getAllRelatedContacts`.
`stack` is the JS array used with `push`/`pop` (top of stack first, so the
children pushed by `forEach` sit on it in reverse), `processed` is the
visited set (the code's `processed` and `contactIds` are the same set: both
receive `contact.id` together).  `fuel` bounds the number of iterations;
`none` means the fuel ran out (shown below never to happen). -/
def expandLoop (db : DB) : Nat → List Contact → List Nat → Option (List Nat)
  | _, [], processed => some processed
  | 0, _ :: _, _ => none
  | fuel + 1, c :: rest, processed =>
    if c.id ∈ processed then expandLoop db fuel rest processed
    else
      expandLoop db fuel
        ((expandChildren db (c.id :: processed) c).reverse
          ++ expandParent db (c.id :: processed) c ++ rest)
        (c.id :: processed)

/-- Enough fuel for the worklist to drain on any store (proved below). -/
def expandFuelBound (db : DB) (matched : List Contact) : Nat :=
  matched.length + (db.rows.length + 1) * (db.rows.length + 2)

/-- The collected `contactIds` set of `getAllRelatedContacts` (the loop part).
The initial stack is `matches` in pop order. -/
def relatedIds (db : DB) (matched : List Contact) : Option (List Nat) :=
  expandLoop db (expandFuelBound db matched) matched.reverse []

/-- `getAllRelatedContacts`: run the closure loop, then fetch all collected,
non-deleted rows in `createdAt` order. -/
def getAllRelatedContacts (db : DB) (matched : List Contact) : Option (List Contact) :=
  (relatedIds db matched).map (fetchByIds db)

/-- The JS `Map.set` used by `getUniquePrimaries`: an existing key keeps its
position and gets the new value, a new key is appended. -/
def mapSet (m : List (Nat × Contact)) (k : Nat) (v : Contact) : List (Nat × Contact) :=
  if m.any (fun p => p.1 == k) then m.map (fun p => if p.1 == k then (k, v) else p)
  else m ++ [(k, v)]

/-- `getUniquePrimaries`: primaries deduplicated by id via a `Map`, then
sorted by `createdAt` (JS `Array.prototype.sort` is stable; the comparator
uses only `createdAt`). -/
def getUniquePrimaries (contacts : List Contact) : List Contact :=
  let primaryMap := contacts.foldl
    (fun m c => if c.linkPrecedence = Precedence.primary then mapSet m c.id c else m) []
  sortByCreated (primaryMap.map (fun p => p.2))

/-- `shouldCreateSecondary`, including the JS comparison semantics:
`c.email === email` compares a `string | null` with a `string | undefined`
(`jsStrictEq`), and `if (email && phoneNumber)` / `if (email)` are
truthiness tests (`isTruthy`). -/
def shouldCreateSecondary (family : List Contact) (email phoneNumber : Option String) : Bool :=
  let exactMatch := family.any
    (fun c => jsStrictEq c.email email && jsStrictEq c.phoneNumber phoneNumber)
  if exactMatch then false
  else
    let hasEmail := family.any (fun c => jsStrictEq c.email email)
    let hasPhone := family.any (fun c => jsStrictEq c.phoneNumber phoneNumber)
    if isTruthy email && isTruthy phoneNumber then !hasEmail || !hasPhone
    else if isTruthy email && !hasEmail then true
    else if isTruthy phoneNumber && !hasPhone then true
    else false

/-- The `reduce` electing the oldest primary: JS `reduce` without an initial
value folds the tail with the head as accumulator; the comparison is a
strict `<` on `createdAt`, so ties keep the earlier-listed primary. -/
def reduceOldest (p0 : Contact) (rest : List Contact) : Contact :=
  rest.foldl (fun oldest current =>
    if current.createdAt < oldest.createdAt then current else oldest) p0

/-- Row-level effect of the demoting `update`. -/
def demoteRow (pid oldestId now : Nat) (c : Contact) : Contact :=
  if c.id = pid then
    { c with linkedId := some oldestId, linkPrecedence := Precedence.secondary,
             updatedAt := now }
  else c

/-- Row-level effect of the repointing `updateMany`. -/
def repointRow (pid oldestId : Nat) (c : Contact) : Contact :=
  if c.linkedId = some pid then { c with linkedId := some oldestId } else c

/-- The `prisma.contact.update` demoting one primary inside the merge loop. -/
def demoteWrite (pid oldestId now : Nat) : DB → DB := fun db =>
  { db with rows := db.rows.map (demoteRow pid oldestId now) }

/-- The `prisma.contact.updateMany` repointing a demoted primary's dependents
(note: no `deletedAt` filter in the source). -/
def repointWrite (pid oldestId : Nat) : DB → DB := fun db =>
  { db with rows := db.rows.map (repointRow pid oldestId) }

/-- The committed write statements of the merge loop, in program order: for
each non-surviving primary, first the demoting `update`, then the repointing
`updateMany`.  Each list element is one independently committed statement
(the source wraps them in no transaction). -/
def mergeWriteSeq (others : List Contact) (oldestId now : Nat) : List (DB → DB) :=
  others.flatMap (fun p => [demoteWrite p.id oldestId now, repointWrite p.id oldestId])

/-- Apply a sequence of write statements left to right. -/
def applyWrites (ws : List (DB → DB)) (db : DB) : DB :=
  ws.foldl (fun d w => w d) db

/-- The refetch at the end of `mergePrimaries`: survivor plus everyone linked
to it, non-deleted, in `createdAt` order. -/
def refetchFamily (db : DB) (pid : Nat) : List Contact :=
  sortByCreated (db.rows.filter (fun c =>
    (c.id == pid || c.linkedId == some pid) && c.deletedAt == none))

/-- `buildResponse`.  The non-null assertion on the primary lookup is
modelled as `Option`: an input without a primary yields `none`.  The pushes
guard on truthiness (`if (primary.email)`, `if (c.email && !includes)`),
so `null` and `""` values are skipped. -/
def buildResponse (contacts : List Contact) : Option IdentifyResponse :=
  match contacts.find? (fun c => decide (c.linkPrecedence = Precedence.primary)) with
  | none => none
  | some primary =>
    let secondaries := contacts.filter (fun c => decide (c.linkPrecedence = Precedence.secondary))
    let emails := secondaries.foldl
      (fun acc c => match c.email with
        | some e => if e != "" && !(acc.contains e) then acc ++ [e] else acc
        | none => acc)
      (match primary.email with
       | some e => if e != "" then [e] else []
       | none => [])
    let phoneNumbers := secondaries.foldl
      (fun acc c => match c.phoneNumber with
        | some p => if p != "" && !(acc.contains p) then acc ++ [p] else acc
        | none => acc)
      (match primary.phoneNumber with
       | some p => if p != "" then [p] else []
       | none => [])
    some { primaryContactId := primary.id, emails := emails, phoneNumbers := phoneNumbers,
           secondaryContactIds := secondaries.map (fun c => c.id) }

/-- `mergePrimaries`.  The `allContacts` parameter is kept because the source
declares it (it is unused there too).  The write statements go through
`mergeWriteSeq`/`applyWrites` so that partially applied executions are
expressible. -/
def mergePrimaries (primaries _allContacts : List Contact)
    (email phoneNumber : Option String) (db : DB) (now : Nat) :
    Option (IdentifyResponse × DB) :=
  match primaries with
  | [] => none
  | p0 :: rest =>
    let oldestPrimary := reduceOldest p0 rest
    let otherPrimaries := primaries.filter (fun p => decide (p.id ≠ oldestPrimary.id))
    let db1 := applyWrites (mergeWriteSeq otherPrimaries oldestPrimary.id now) db
    let updatedFamily := refetchFamily db1 oldestPrimary.id
    if shouldCreateSecondary updatedFamily email phoneNumber then
      let created := createContact db1 now email phoneNumber (some oldestPrimary.id)
        Precedence.secondary
      (buildResponse (updatedFamily ++ [created.1])).map (fun r => (r, created.2))
    else
      (buildResponse updatedFamily).map (fun r => (r, db1))

/-- `identifyContact`: the whole pipeline.  Returns the response together
with the post-request store; `none` only on the unreachable fuel-exhaustion
and no-primary-in-`buildResponse` paths. -/
def identifyContact (db : DB) (now : Nat) (email phoneNumber : Option String) :
    Option (IdentifyResponse × DB) :=
  let matched := findManyMatches db email phoneNumber
  match getAllRelatedContacts db matched with
  | none => none
  | some allRelatedContacts =>
    match getUniquePrimaries allRelatedContacts with
    | [] =>
      let created := createContact db now email phoneNumber none Precedence.primary
      (buildResponse [created.1]).map (fun r => (r, created.2))
    | [primary] =>
      let family := allRelatedContacts.filter
        (fun c => c.id == primary.id || c.linkedId == some primary.id)
      if shouldCreateSecondary family email phoneNumber then
        let created := createContact db now email phoneNumber (some primary.id)
          Precedence.secondary
        (buildResponse (family ++ [created.1])).map (fun r => (r, created.2))
      else
        (buildResponse family).map (fun r => (r, db))
    | p0 :: p1 :: ps =>
      mergePrimaries (p0 :: p1 :: ps) allRelatedContacts email phoneNumber db now

/-! ## Basic lemmas about the JS comparison helpers -/

theorem jsStrictEq_some (v : Option String) (e : String) :
    jsStrictEq v (some e) = (v == some e) := by
  cases v <;> rfl

theorem jsStrictEq_none (v : Option String) : jsStrictEq v none = false := by
  cases v <;> rfl

theorem jsStrictEq_self (v : Option String) : jsStrictEq v v = v.isSome := by
  cases v with
  | none => rfl
  | some s => simp [jsStrictEq]

/-! ## Lemmas about the `createdAt` sort -/

theorem insertByCreated_perm (x : Contact) (l : List Contact) :
    List.Perm (insertByCreated x l) (x :: l) := by
  induction l with
  | nil => exact List.Perm.refl _
  | cons y ys ih =>
    unfold insertByCreated
    by_cases h : y.createdAt < x.createdAt
    · simp only [if_pos h]
      exact (List.Perm.cons y ih).trans (List.Perm.swap x y ys)
    · simp only [if_neg h]
      exact List.Perm.refl _

theorem sortByCreated_perm (l : List Contact) : List.Perm (sortByCreated l) l := by
  induction l with
  | nil => exact List.Perm.refl _
  | cons a t ih =>
    have hdef : sortByCreated (a :: t) = insertByCreated a (sortByCreated t) := rfl
    rw [hdef]
    exact (insertByCreated_perm a _).trans (List.Perm.cons a ih)

theorem mem_sortByCreated {a : Contact} {l : List Contact} :
    a ∈ sortByCreated l ↔ a ∈ l :=
  (sortByCreated_perm l).mem_iff

theorem insertByCreated_pairwise {x : Contact} {l : List Contact}
    (hl : l.Pairwise (fun a b => a.createdAt ≤ b.createdAt)) :
    (insertByCreated x l).Pairwise (fun a b => a.createdAt ≤ b.createdAt) := by
  induction l with
  | nil => simp [insertByCreated]
  | cons y ys ih =>
    rw [List.pairwise_cons] at hl
    obtain ⟨hy, hys⟩ := hl
    unfold insertByCreated
    by_cases h : y.createdAt < x.createdAt
    · simp only [if_pos h]
      rw [List.pairwise_cons]
      refine ⟨?_, ih hys⟩
      intro b hb
      rcases List.mem_cons.mp ((insertByCreated_perm x ys).mem_iff.mp hb) with hbx | hbys
      · exact hbx ▸ Nat.le_of_lt h
      · exact hy b hbys
    · simp only [if_neg h]
      rw [List.pairwise_cons]
      refine ⟨?_, List.pairwise_cons.mpr ⟨hy, hys⟩⟩
      intro b hb
      rcases List.mem_cons.mp hb with hby | hbys
      · exact hby ▸ Nat.le_of_not_lt h
      · exact Nat.le_trans (Nat.le_of_not_lt h) (hy b hbys)

theorem sortByCreated_pairwise (l : List Contact) :
    (sortByCreated l).Pairwise (fun a b => a.createdAt ≤ b.createdAt) := by
  induction l with
  | nil => simp [sortByCreated]
  | cons a t ih => exact insertByCreated_pairwise ih

theorem sortByCreated_nil : sortByCreated [] = [] := rfl

theorem sortByCreated_eq_nil {l : List Contact} (h : sortByCreated l = []) : l = [] :=
  ((h ▸ sortByCreated_perm l : ([] : List Contact).Perm l)).symm.eq_nil

/-! ## C5: the `shouldCreateSecondary` decision table -/

/-- Modelled from the spec text of §4.5, as the claim reads it: rule 1
compares the pair field-for-field with absent-equals-absent (`Option`
equality), rules 2-4 read "supplied" as plain presence (`isSome`). -/
def shouldCreateSecondarySpec (family : List Contact) (email phoneNumber : Option String) : Bool :=
  if family.any (fun c => c.email == email && c.phoneNumber == phoneNumber) then false
  else if email.isSome && phoneNumber.isSome then
    !(family.any (fun c => c.email == email)) || !(family.any (fun c => c.phoneNumber == phoneNumber))
  else if email.isSome then !(family.any (fun c => c.email == email))
  else if phoneNumber.isSome then !(family.any (fun c => c.phoneNumber == phoneNumber))
  else false

theorem shouldCreateSecondary_eq_spec (family : List Contact) (email phoneNumber : Option String)
    (hE : ∀ s, email = some s → s ≠ "") (hP : ∀ s, phoneNumber = some s → s ≠ "") :
    shouldCreateSecondary family email phoneNumber =
      shouldCreateSecondarySpec family email phoneNumber := by
  cases email with
  | none =>
    cases phoneNumber with
    | none =>
      simp [shouldCreateSecondary, shouldCreateSecondarySpec, jsStrictEq_none, isTruthy]
    | some p =>
      have hp : (p != "") = true := by simpa using hP p rfl
      by_cases hx : family.any (fun c => c.email == none && c.phoneNumber == some p) = true
      · obtain ⟨c, hc, hcp⟩ := List.any_eq_true.mp hx
        rw [Bool.and_eq_true] at hcp
        have hhas : family.any (fun c => jsStrictEq c.phoneNumber (some p)) = true := by
          refine List.any_eq_true.mpr ⟨c, hc, ?_⟩
          rw [jsStrictEq_some]
          exact hcp.2
        simp only [Bool.and_eq_true, beq_iff_eq] at hcp
        simp [shouldCreateSecondary, shouldCreateSecondarySpec, jsStrictEq_none, isTruthy,
          hx, hhas, jsStrictEq_some]
        exact fun _ => ⟨c, hc, hcp.2⟩
      · simp [shouldCreateSecondary, shouldCreateSecondarySpec, jsStrictEq_none, isTruthy,
          hx, jsStrictEq_some, hp]
        rw [Bool.eq_iff_iff]
        simp [List.any_eq_true]
  | some e =>
    have he : (e != "") = true := by simpa using hE e rfl
    cases phoneNumber with
    | none =>
      by_cases hx : family.any (fun c => c.email == some e && c.phoneNumber == none) = true
      · obtain ⟨c, hc, hcp⟩ := List.any_eq_true.mp hx
        rw [Bool.and_eq_true] at hcp
        have hhas : family.any (fun c => jsStrictEq c.email (some e)) = true := by
          refine List.any_eq_true.mpr ⟨c, hc, ?_⟩
          rw [jsStrictEq_some]
          exact hcp.1
        simp only [Bool.and_eq_true, beq_iff_eq] at hcp
        simp [shouldCreateSecondary, shouldCreateSecondarySpec, jsStrictEq_none, isTruthy,
          hx, hhas, jsStrictEq_some]
        exact fun _ => ⟨c, hc, hcp.1⟩
      · simp [shouldCreateSecondary, shouldCreateSecondarySpec, jsStrictEq_none, isTruthy,
          hx, jsStrictEq_some, he]
        rw [Bool.eq_iff_iff]
        simp [List.any_eq_true]
    | some p =>
      have hp : (p != "") = true := by simpa using hP p rfl
      simp [shouldCreateSecondary, shouldCreateSecondarySpec, isTruthy, he, hp,
        jsStrictEq_some]

/-- **C5** (corrected). The claim's decision table is almost the code's, but
the code tests "supplied" with JS truthiness, so a supplied *empty-string*
identifier is treated as absent: with family `[(email "x", phone "p")]` and
input `(email "", phone "p")` the claim's table says *create* (both supplied,
`""` appears nowhere) while the code returns `false` (no create). -/
theorem claim5_counterexample :
    shouldCreateSecondary
        [⟨1, some "x", some "p", none, Precedence.primary, 0, 0, none⟩]
        (some "") (some "p") = false
    ∧ shouldCreateSecondarySpec
        [⟨1, some "x", some "p", none, Precedence.primary, 0, 0, none⟩]
        (some "") (some "p") = true := by
  constructor <;> rfl

/-- **C5** (amended). For requests whose supplied identifiers are non-empty
strings — the only inputs the caller-level contract admits — the code's
`shouldCreateSecondary` computes exactly the claim's decision table:
rule 1 (exact pair, absent-equals-absent) suppresses the create, otherwise
create iff (both supplied and one value is new) or (one supplied and new). -/
theorem claim5_shouldCreateSecondary_table (family : List Contact)
    (email phoneNumber : Option String)
    (hE : ∀ s, email = some s → s ≠ "") (hP : ∀ s, phoneNumber = some s → s ≠ "") :
    shouldCreateSecondary family email phoneNumber =
      shouldCreateSecondarySpec family email phoneNumber :=
  shouldCreateSecondary_eq_spec family email phoneNumber hE hP

/-- Witness for C5's amended theorem at a concrete family and request. -/
theorem claim5_witness :
    shouldCreateSecondary
        [⟨1, some "x", some "p", none, Precedence.primary, 0, 0, none⟩]
        (some "a") (some "q")
      = shouldCreateSecondarySpec
        [⟨1, some "x", some "p", none, Precedence.primary, 0, 0, none⟩]
        (some "a") (some "q") :=
  claim5_shouldCreateSecondary_table _ _ _
    (by intro s hs; cases hs; decide) (by intro s hs; cases hs; decide)

/-! ## C6: primary selection and survivor election -/

theorem foldl_mapSet_eq (l : List Contact) (acc : List (Nat × Contact))
    (hnd : (l.map (fun c => c.id)).Nodup)
    (hdisj : ∀ q ∈ acc, ∀ c ∈ l, c.linkPrecedence = Precedence.primary → q.1 ≠ c.id) :
    l.foldl (fun m c => if c.linkPrecedence = Precedence.primary then mapSet m c.id c else m) acc
      = acc ++ (l.filter (fun c => decide (c.linkPrecedence = Precedence.primary))).map
          (fun c => (c.id, c)) := by
  induction l generalizing acc with
  | nil => simp
  | cons c t ih =>
    rw [List.map_cons, List.nodup_cons] at hnd
    obtain ⟨hcid, hndt⟩ := hnd
    by_cases hc : c.linkPrecedence = Precedence.primary
    · rw [List.foldl_cons, if_pos hc]
      have hnot : (acc.any fun q => q.1 == c.id) = false := by
        rw [List.any_eq_false]
        intro q hq
        simp [hdisj q hq c (List.mem_cons_self c t) hc]
      have hset : mapSet acc c.id c = acc ++ [(c.id, c)] := by
        unfold mapSet
        rw [hnot]
        simp
      rw [hset]
      have hdisj2 : ∀ q ∈ acc ++ [(c.id, c)], ∀ d ∈ t,
          d.linkPrecedence = Precedence.primary → q.1 ≠ d.id := by
        intro q hq d hd hdp
        rcases List.mem_append.mp hq with hq1 | hq2
        · exact hdisj q hq1 d (List.mem_cons_of_mem c hd) hdp
        · rw [List.mem_singleton] at hq2
          subst hq2
          intro hqe
          simp only [] at hqe
          exact hcid (by rw [hqe]; exact List.mem_map.mpr ⟨d, hd, rfl⟩)
      rw [ih (acc ++ [(c.id, c)]) hndt hdisj2]
      simp [List.filter_cons, hc]
    · rw [List.foldl_cons, if_neg hc]
      rw [ih acc hndt (fun q hq d hd hdp => hdisj q hq d (List.mem_cons_of_mem c hd) hdp)]
      simp [List.filter_cons, hc]

theorem getUniquePrimaries_eq (l : List Contact) (hnd : (l.map (fun c => c.id)).Nodup) :
    getUniquePrimaries l
      = sortByCreated (l.filter (fun c => decide (c.linkPrecedence = Precedence.primary))) := by
  unfold getUniquePrimaries
  rw [foldl_mapSet_eq l [] hnd (by simp)]
  show sortByCreated (List.map (fun p => p.2)
      ([] ++ List.map (fun c => (c.id, c))
        (List.filter (fun c => decide (c.linkPrecedence = Precedence.primary)) l)))
    = _
  rw [List.nil_append, List.map_map]
  congr 1
  apply List.map_id

theorem reduceOldest_mem (p0 : Contact) (rest : List Contact) :
    reduceOldest p0 rest ∈ p0 :: rest := by
  induction rest generalizing p0 with
  | nil => simp [reduceOldest]
  | cons r t ih =>
    have hstep : reduceOldest p0 (r :: t)
        = reduceOldest (if r.createdAt < p0.createdAt then r else p0) t := by
      simp [reduceOldest]
    rw [hstep]
    rcases List.mem_cons.mp (ih (if r.createdAt < p0.createdAt then r else p0)) with h1 | h2
    · rw [h1]
      by_cases hr : r.createdAt < p0.createdAt
      · simp [hr]
      · simp [hr]
    · exact List.mem_cons_of_mem _ (List.mem_cons_of_mem _ h2)

theorem reduceOldest_min (p0 : Contact) (rest : List Contact) :
    ∀ x ∈ p0 :: rest, (reduceOldest p0 rest).createdAt ≤ x.createdAt := by
  induction rest generalizing p0 with
  | nil =>
    intro x hx
    rw [List.mem_singleton] at hx
    subst hx
    simp [reduceOldest]
  | cons r t ih =>
    intro x hx
    have hstep : reduceOldest p0 (r :: t)
        = reduceOldest (if r.createdAt < p0.createdAt then r else p0) t := by
      simp [reduceOldest]
    rw [hstep]
    have hq0 : (if r.createdAt < p0.createdAt then r else p0).createdAt ≤ p0.createdAt := by
      by_cases hr : r.createdAt < p0.createdAt
      · simp [hr]; exact Nat.le_of_lt hr
      · simp [hr]
    have hqr : (if r.createdAt < p0.createdAt then r else p0).createdAt ≤ r.createdAt := by
      by_cases hr : r.createdAt < p0.createdAt
      · simp [hr]
      · simp [hr]; exact Nat.le_of_not_lt hr
    have hmin := ih (if r.createdAt < p0.createdAt then r else p0)
    rcases List.mem_cons.mp hx with h1 | h2
    · subst h1
      exact Nat.le_trans (hmin _ (List.mem_cons_self _ _)) hq0
    · rcases List.mem_cons.mp h2 with h3 | h4
      · subst h3
        exact Nat.le_trans (hmin _ (List.mem_cons_self _ _)) hqr
      · exact hmin x (List.mem_cons_of_mem _ h4)

/-- **C6** (corrected). Neither sort uses the id: `getUniquePrimaries` sorts
with a comparator on `createdAt` alone (stable, so ties keep first-occurrence
order), and the survivor `reduce` keeps the earlier-listed primary on ties.
With two primaries that share `createdAt` and arrive in descending-id order,
the selected list stays `[id 2, id 1]` and the survivor is id 2 — not the
id-ascending order and smallest-id survivor the claim states. -/
theorem claim6_counterexample :
    (getUniquePrimaries
        [⟨2, none, some "p", none, Precedence.primary, 0, 0, none⟩,
         ⟨1, some "a", none, none, Precedence.primary, 0, 0, none⟩]).map (fun c => c.id)
        = [2, 1]
    ∧ ((getUniquePrimaries
        [⟨2, none, some "p", none, Precedence.primary, 0, 0, none⟩,
         ⟨1, some "a", none, none, Precedence.primary, 0, 0, none⟩]).map (fun c => c.id)
        ≠ [1, 2])
    ∧ (reduceOldest ⟨2, none, some "p", none, Precedence.primary, 0, 0, none⟩
        [⟨1, some "a", none, none, Precedence.primary, 0, 0, none⟩]).id = 2 := by
  refine ⟨rfl, by decide, rfl⟩

/-- **C6** (amended). The selected primaries are the primaries of the
expanded set in ascending `createdAt` order with ties kept in
first-occurrence order (a stable sort — no id tie-break), and the elected
survivor is a primary of minimal `createdAt`, the earliest-listed one on
ties (again no id tie-break); both are deterministic in the input order. -/
theorem claim6_primary_order (contacts : List Contact) (p0 : Contact) (rest : List Contact)
    (hnd : (contacts.map (fun c => c.id)).Nodup) :
    getUniquePrimaries contacts
        = sortByCreated (contacts.filter (fun c => decide (c.linkPrecedence = Precedence.primary)))
    ∧ (getUniquePrimaries contacts).Pairwise (fun a b => a.createdAt ≤ b.createdAt)
    ∧ reduceOldest p0 rest ∈ p0 :: rest
    ∧ (∀ x ∈ p0 :: rest, (reduceOldest p0 rest).createdAt ≤ x.createdAt) := by
  refine ⟨getUniquePrimaries_eq contacts hnd, ?_, reduceOldest_mem p0 rest,
    reduceOldest_min p0 rest⟩
  rw [getUniquePrimaries_eq contacts hnd]
  exact sortByCreated_pairwise _

/-- Witness for C6's amended theorem at a concrete expanded set. -/
theorem claim6_witness :
    getUniquePrimaries
        [⟨1, some "a", none, none, Precedence.primary, 0, 0, none⟩]
        = sortByCreated
          ([⟨1, some "a", none, none, Precedence.primary, 0, 0, none⟩].filter
            (fun c => decide (c.linkPrecedence = Precedence.primary)))
    ∧ (getUniquePrimaries
        [⟨1, some "a", none, none, Precedence.primary, 0, 0, none⟩]).Pairwise
          (fun a b => a.createdAt ≤ b.createdAt)
    ∧ reduceOldest (⟨1, some "a", none, none, Precedence.primary, 0, 0, none⟩ : Contact) []
        ∈ [⟨1, some "a", none, none, Precedence.primary, 0, 0, none⟩]
    ∧ (∀ x ∈ [(⟨1, some "a", none, none, Precedence.primary, 0, 0, none⟩ : Contact)],
        (reduceOldest (⟨1, some "a", none, none, Precedence.primary, 0, 0, none⟩ : Contact)
          []).createdAt ≤ x.createdAt) :=
  claim6_primary_order _ _ _ (by decide)

/-! ## C10: the `buildResponse` primary assertion -/

/-- **C10** (confirmed). `buildResponse` is defined exactly when its input
contains a contact with precedence `primary`; it then returns a response
whose `primaryContactId` is the id of the *first* primary in list order,
and on a primary-free input the non-null assertion fails (modelled as
`none`). -/
theorem claim10_buildResponse_primary (contacts : List Contact) :
    (buildResponse contacts = none ↔ ∀ c ∈ contacts, c.linkPrecedence ≠ Precedence.primary)
    ∧ (∀ pr, contacts.find? (fun c => decide (c.linkPrecedence = Precedence.primary)) = some pr →
        ∃ r, buildResponse contacts = some r ∧ r.primaryContactId = pr.id) := by
  constructor
  · cases h : contacts.find? (fun c => decide (c.linkPrecedence = Precedence.primary)) with
    | none =>
      have hall := List.find?_eq_none.mp h
      unfold buildResponse
      rw [h]
      simp only [true_iff]
      intro c hc
      simpa using hall c hc
    | some pr =>
      unfold buildResponse
      rw [h]
      constructor
      · intro hsn
        exact absurd hsn (by simp)
      · intro hall
        exact absurd (by simpa using List.find?_some h)
          (hall pr (List.mem_of_find?_eq_some h))
  · intro pr hpr
    unfold buildResponse
    rw [hpr]
    exact ⟨_, rfl, rfl⟩

/-- Witness for C10 at a concrete one-primary family. -/
theorem claim10_witness :
    ∃ r, buildResponse [⟨7, some "e", none, none, Precedence.primary, 3, 3, none⟩] = some r
      ∧ r.primaryContactId
          = (⟨7, some "e", none, none, Precedence.primary, 3, 3, none⟩ : Contact).id :=
  (claim10_buildResponse_primary _).2 _ rfl

/-! ## The spec's data-model invariants (§3) -/

/-- Invariant 1: every non-deleted secondary's `linkedId` resolves to a
non-deleted primary row. -/
def Invariant1 (db : DB) : Prop :=
  ∀ c ∈ db.rows, Alive c → c.linkPrecedence = Precedence.secondary →
    ∃ p ∈ db.rows, c.linkedId = some p.id ∧ Alive p ∧ p.linkPrecedence = Precedence.primary

/-- Invariant 2: no contact references a secondary via `linkedId` (link depth
exactly one). -/
def Invariant2 (db : DB) : Prop :=
  ∀ c ∈ db.rows, ∀ d ∈ db.rows, c.linkedId = some d.id →
    d.linkPrecedence = Precedence.primary

instance aliveDecidable (c : Contact) : Decidable (Alive c) := by
  unfold Alive
  infer_instance

instance invariant1Decidable (db : DB) : Decidable (Invariant1 db) := by
  unfold Invariant1
  infer_instance

instance invariant2Decidable (db : DB) : Decidable (Invariant2 db) := by
  unfold Invariant2
  infer_instance

/-! ## C8: the response projection -/

/-- The non-null, non-empty values of one field over a contact list, in list
order (what the response folds may draw from). -/
def truthyVals (l : List Contact) (g : Contact → Option String) : List String :=
  l.filterMap (fun c => match g c with
    | some s => if s != "" then some s else none
    | none => none)

theorem truthyVals_nil (g : Contact → Option String) : truthyVals [] g = [] := rfl

theorem fold_push_spec (g : Contact → Option String) (l : List Contact) (acc : List String) :
    ∃ t, l.foldl (fun acc c => match g c with
        | some e => if e != "" && !(acc.contains e) then acc ++ [e] else acc
        | none => acc) acc
      = acc ++ t
    ∧ List.Sublist t (truthyVals l g)
    ∧ (acc.Nodup → (acc ++ t).Nodup)
    ∧ (∀ v, v ∈ acc ++ t ↔ v ∈ acc ∨ v ∈ truthyVals l g) := by
  induction l generalizing acc with
  | nil =>
    refine ⟨[], by rw [List.foldl_nil, List.append_nil], List.nil_sublist _, ?_, ?_⟩
    · intro h
      rwa [List.append_nil]
    · intro v
      show v ∈ acc ++ [] ↔ v ∈ acc ∨ v ∈ truthyVals [] g
      rw [truthyVals_nil, List.append_nil]
      simp
  | cons c rest ih =>
    have htv : truthyVals (c :: rest) g = (match g c with
        | some s => if s != "" then s :: truthyVals rest g else truthyVals rest g
        | none => truthyVals rest g) := by
      unfold truthyVals
      rw [List.filterMap_cons]
      cases hg : g c with
      | none => simp
      | some s =>
        by_cases hs : (s != "") = true
        · simp [hs]
        · simp [hs]
    rw [htv]
    cases hg : g c with
    | none =>
      simp only [List.foldl_cons, hg]
      exact ih acc
    | some e =>
      simp only [List.foldl_cons, hg]
      by_cases hcond : (e != "" && !(acc.contains e)) = true
      · rw [if_pos hcond]
        obtain ⟨t, ht, hsub, hnd, hiff⟩ := ih (acc ++ [e])
        rw [Bool.and_eq_true] at hcond
        have he : (e != "") = true := hcond.1
        refine ⟨e :: t, ?_, ?_, ?_, ?_⟩
        · rw [ht, List.append_assoc]
          rfl
        · rw [if_pos he]
          exact List.Sublist.cons₂ e hsub
        · intro hacc
          have hmem : e ∉ acc := by
            intro hx
            have h2 := hcond.2
            rw [Bool.not_eq_true'] at h2
            have hc2 : acc.contains e = true := by simpa using hx
            rw [h2] at hc2
            exact absurd hc2 (by decide)
          have hnd2 : (acc ++ [e]).Nodup := by
            rw [List.nodup_append]
            exact ⟨hacc, List.nodup_singleton e, by simpa using hmem⟩
          have h3 := hnd hnd2
          rw [List.append_assoc] at h3
          simpa using h3
        · intro v
          rw [if_pos he]
          have hassoc : acc ++ e :: t = (acc ++ [e]) ++ t := by
            rw [List.append_assoc]
            rfl
          rw [hassoc, hiff v]
          constructor
          · rintro (h | h)
            · rcases List.mem_append.mp h with h1 | h1
              · exact Or.inl h1
              · exact Or.inr (List.mem_cons.mpr (Or.inl (List.mem_singleton.mp h1)))
            · exact Or.inr (List.mem_cons_of_mem e h)
          · rintro (h | h)
            · exact Or.inl (List.mem_append.mpr (Or.inl h))
            · rcases List.mem_cons.mp h with h1 | h1
              · exact Or.inl (List.mem_append.mpr (Or.inr (List.mem_singleton.mpr h1)))
              · exact Or.inr h1
      · rw [if_neg hcond]
        obtain ⟨t, ht, hsub, hnd, hiff⟩ := ih acc
        by_cases he : (e != "") = true
        · have hin : e ∈ acc := by
            cases hacc : acc.contains e with
            | true => simpa using hacc
            | false =>
              exact absurd (by rw [Bool.and_eq_true]; exact ⟨he, by rw [hacc]; rfl⟩) hcond
          refine ⟨t, ht, ?_, hnd, ?_⟩
          · rw [if_pos he]
            exact hsub.cons e
          · intro v
            rw [if_pos he, hiff v]
            constructor
            · rintro (h | h)
              · exact Or.inl h
              · exact Or.inr (List.mem_cons_of_mem e h)
            · rintro (h | h)
              · exact Or.inl h
              · rcases List.mem_cons.mp h with h1 | h1
                · exact Or.inl (by rw [h1]; exact hin)
                · exact Or.inr h1
        · refine ⟨t, ht, ?_, hnd, ?_⟩
          · rw [if_neg he]
            exact hsub
          · intro v
            rw [if_neg he]
            exact hiff v

/-- **C8** (corrected): the claim holds once empty-string values are, like
nulls, recognised as skipped (JS truthiness): the response lists are
duplicate-free, start with the primary's non-empty value when it has one,
continue with the secondaries' non-empty values in ascending `createdAt`
order — every non-empty value of a secondary is present (the final
membership clauses), only such values and in that order appear (the
sublist clauses), and nothing repeats — and `secondaryContactIds` is every
secondary's id in ascending `createdAt` order. -/
theorem claim8_response_shape (contacts : List Contact) (r : IdentifyResponse)
    (hsorted : contacts.Pairwise (fun a b => a.createdAt ≤ b.createdAt))
    (hr : buildResponse contacts = some r) :
    r.emails.Nodup
    ∧ r.phoneNumbers.Nodup
    ∧ (∃ pr, contacts.find? (fun c => decide (c.linkPrecedence = Precedence.primary)) = some pr
        ∧ r.primaryContactId = pr.id
        ∧ (∀ e, pr.email = some e → e ≠ "" → r.emails.head? = some e)
        ∧ (∀ p, pr.phoneNumber = some p → p ≠ "" → r.phoneNumbers.head? = some p)
        ∧ (∃ te, r.emails = (match pr.email with
              | some e => if e != "" then [e] else []
              | none => []) ++ te
            ∧ List.Sublist te (truthyVals (contacts.filter
                (fun c => decide (c.linkPrecedence = Precedence.secondary))) (fun c => c.email)))
        ∧ (∃ tp, r.phoneNumbers = (match pr.phoneNumber with
              | some p => if p != "" then [p] else []
              | none => []) ++ tp
            ∧ List.Sublist tp (truthyVals (contacts.filter
                (fun c => decide (c.linkPrecedence = Precedence.secondary)))
                (fun c => c.phoneNumber))))
    ∧ (∀ v ∈ truthyVals (contacts.filter
          (fun c => decide (c.linkPrecedence = Precedence.secondary))) (fun c => c.email),
        v ∈ r.emails)
    ∧ (∀ v ∈ truthyVals (contacts.filter
          (fun c => decide (c.linkPrecedence = Precedence.secondary))) (fun c => c.phoneNumber),
        v ∈ r.phoneNumbers)
    ∧ r.secondaryContactIds
        = (contacts.filter (fun c => decide (c.linkPrecedence = Precedence.secondary))).map
            (fun c => c.id)
    ∧ (contacts.filter (fun c => decide (c.linkPrecedence = Precedence.secondary))).Pairwise
        (fun a b => a.createdAt ≤ b.createdAt) := by
  unfold buildResponse at hr
  cases hfind : contacts.find? (fun c => decide (c.linkPrecedence = Precedence.primary)) with
  | none =>
    rw [hfind] at hr
    exact absurd hr (by simp)
  | some pr =>
    rw [hfind] at hr
    have hrec := Option.some.inj hr
    have hE : r.emails = List.foldl (fun acc c => match c.email with
        | some e => if e != "" && !(acc.contains e) then acc ++ [e] else acc
        | none => acc)
        (match pr.email with
          | some e => if e != "" then [e] else []
          | none => [])
        (contacts.filter (fun c => decide (c.linkPrecedence = Precedence.secondary))) := by
      rw [← hrec]
    have hPh : r.phoneNumbers = List.foldl (fun acc c => match c.phoneNumber with
        | some p => if p != "" && !(acc.contains p) then acc ++ [p] else acc
        | none => acc)
        (match pr.phoneNumber with
          | some p => if p != "" then [p] else []
          | none => [])
        (contacts.filter (fun c => decide (c.linkPrecedence = Precedence.secondary))) := by
      rw [← hrec]
    have hId : r.secondaryContactIds
        = (contacts.filter (fun c => decide (c.linkPrecedence = Precedence.secondary))).map
            (fun c => c.id) := by
      rw [← hrec]
    have hPid : r.primaryContactId = pr.id := by
      rw [← hrec]
    obtain ⟨te, hte, hesub, hend, heiff⟩ := fold_push_spec (fun c => c.email)
      (contacts.filter (fun c => decide (c.linkPrecedence = Precedence.secondary)))
      (match pr.email with
        | some e => if e != "" then [e] else []
        | none => [])
    obtain ⟨tp, htp, hpsub, hpnd, hpiff⟩ := fold_push_spec (fun c => c.phoneNumber)
      (contacts.filter (fun c => decide (c.linkPrecedence = Precedence.secondary)))
      (match pr.phoneNumber with
        | some p => if p != "" then [p] else []
        | none => [])
    have hinitE : (match pr.email with
        | some e => if e != "" then [e] else []
        | none => ([] : List String)).Nodup := by
      cases pr.email with
      | none => exact List.nodup_nil
      | some e =>
        show (if (e != "") = true then [e] else ([] : List String)).Nodup
        by_cases he : (e != "") = true
        · rw [if_pos he]; exact List.nodup_singleton e
        · rw [if_neg he]; exact List.nodup_nil
    have hinitP : (match pr.phoneNumber with
        | some p => if p != "" then [p] else []
        | none => ([] : List String)).Nodup := by
      cases pr.phoneNumber with
      | none => exact List.nodup_nil
      | some p =>
        show (if (p != "") = true then [p] else ([] : List String)).Nodup
        by_cases hp : (p != "") = true
        · rw [if_pos hp]; exact List.nodup_singleton p
        · rw [if_neg hp]; exact List.nodup_nil
    refine ⟨?_, ?_, ⟨pr, rfl, hPid, ?_, ?_, ⟨te, ?_, hesub⟩, ⟨tp, ?_, hpsub⟩⟩, ?_, ?_, hId, ?_⟩
    · rw [hE, hte]
      exact hend hinitE
    · rw [hPh, htp]
      exact hpnd hinitP
    · intro e he hne
      have he' : (e != "") = true := by simpa using hne
      rw [hE, hte]
      simp only [he]
      rw [if_pos he']
      rfl
    · intro p hp hnp
      have hp' : (p != "") = true := by simpa using hnp
      rw [hPh, htp]
      simp only [hp]
      rw [if_pos hp']
      rfl
    · rw [hE]
      exact hte
    · rw [hPh]
      exact htp
    · intro v hv
      rw [hE, hte]
      exact (heiff v).mpr (Or.inr hv)
    · intro v hv
      rw [hPh, htp]
      exact (hpiff v).mpr (Or.inr hv)
    · exact hsorted.filter _

/-- **C8** (counterexample to the claim as stated). A primary whose stored
email is the empty string *has* an email value, yet the response's `emails`
list does not start with it — the fold's truthiness guard skips it. -/
theorem claim8_counterexample :
    ∃ r, buildResponse [⟨1, some "", some "", none, Precedence.primary, 0, 0, none⟩] = some r
      ∧ (⟨1, some "", some "", none, Precedence.primary, 0, 0, none⟩ : Contact).email = some ""
      ∧ r.emails = []
      ∧ r.emails.head? ≠ some "" :=
  ⟨_, rfl, rfl, rfl, by decide⟩

/-- Witness for C8's amended theorem: a two-row family whose secondary
contributes a fresh email, which the response must include. -/
theorem claim8_witness :
    ∃ r, buildResponse
        [⟨1, some "a", some "p", none, Precedence.primary, 0, 0, none⟩,
         ⟨2, some "b", none, some 1, Precedence.secondary, 1, 1, none⟩] = some r
      ∧ r.emails.Nodup ∧ "b" ∈ r.emails ∧ r.secondaryContactIds = [2] := by
  have h := claim8_response_shape
    [⟨1, some "a", some "p", none, Precedence.primary, 0, 0, none⟩,
     ⟨2, some "b", none, some 1, Precedence.secondary, 1, 1, none⟩]
    ⟨1, ["a", "b"], ["p"], [2]⟩ (by decide) rfl
  exact ⟨⟨1, ["a", "b"], ["p"], [2]⟩, rfl, h.1, h.2.2.2.1 "b" (by decide),
    h.2.2.2.2.2.1⟩

/-! ## C2: the merge write footprint is not atomic -/

theorem mergeWriteSeq_take_one (P : Contact) (rest : List Contact) (oid now : Nat) :
    (mergeWriteSeq (P :: rest) oid now).take 1 = [demoteWrite P.id oid now] := rfl

theorem applyWrites_singleton (w : DB → DB) (db : DB) : applyWrites [w] db = w db := rfl

/-- **C2** (counterexample). The merge's statements commit independently: on
the two-family store `{A(1) ← A1(2), B(3) ← B1(4)}`, running only the first
statement of the merge write sequence (the demotion of `B`) and stopping —
the state a failure between the two statements leaves committed — yields a
store that differs from both the initial and the final one and violates
invariant 2: `B1` still points to the now-secondary `B`. -/
theorem claim2_counterexample :
    Invariant2 ⟨[⟨1, some "a", none, none, Precedence.primary, 0, 0, none⟩,
        ⟨2, some "a1", none, some 1, Precedence.secondary, 1, 1, none⟩,
        ⟨3, none, some "p", none, Precedence.primary, 2, 2, none⟩,
        ⟨4, none, some "q", some 3, Precedence.secondary, 3, 3, none⟩], 5⟩
    ∧ ¬ Invariant2 (applyWrites
        ((mergeWriteSeq [⟨3, none, some "p", none, Precedence.primary, 2, 2, none⟩] 1 10).take 1)
        ⟨[⟨1, some "a", none, none, Precedence.primary, 0, 0, none⟩,
          ⟨2, some "a1", none, some 1, Precedence.secondary, 1, 1, none⟩,
          ⟨3, none, some "p", none, Precedence.primary, 2, 2, none⟩,
          ⟨4, none, some "q", some 3, Precedence.secondary, 3, 3, none⟩], 5⟩)
    ∧ applyWrites
        ((mergeWriteSeq [⟨3, none, some "p", none, Precedence.primary, 2, 2, none⟩] 1 10).take 1)
        ⟨[⟨1, some "a", none, none, Precedence.primary, 0, 0, none⟩,
          ⟨2, some "a1", none, some 1, Precedence.secondary, 1, 1, none⟩,
          ⟨3, none, some "p", none, Precedence.primary, 2, 2, none⟩,
          ⟨4, none, some "q", some 3, Precedence.secondary, 3, 3, none⟩], 5⟩
      ≠ ⟨[⟨1, some "a", none, none, Precedence.primary, 0, 0, none⟩,
          ⟨2, some "a1", none, some 1, Precedence.secondary, 1, 1, none⟩,
          ⟨3, none, some "p", none, Precedence.primary, 2, 2, none⟩,
          ⟨4, none, some "q", some 3, Precedence.secondary, 3, 3, none⟩], 5⟩
    ∧ applyWrites
        ((mergeWriteSeq [⟨3, none, some "p", none, Precedence.primary, 2, 2, none⟩] 1 10).take 1)
        ⟨[⟨1, some "a", none, none, Precedence.primary, 0, 0, none⟩,
          ⟨2, some "a1", none, some 1, Precedence.secondary, 1, 1, none⟩,
          ⟨3, none, some "p", none, Precedence.primary, 2, 2, none⟩,
          ⟨4, none, some "q", some 3, Precedence.secondary, 3, 3, none⟩], 5⟩
      ≠ applyWrites
        (mergeWriteSeq [⟨3, none, some "p", none, Precedence.primary, 2, 2, none⟩] 1 10)
        ⟨[⟨1, some "a", none, none, Precedence.primary, 0, 0, none⟩,
          ⟨2, some "a1", none, some 1, Precedence.secondary, 1, 1, none⟩,
          ⟨3, none, some "p", none, Precedence.primary, 2, 2, none⟩,
          ⟨4, none, some "q", some 3, Precedence.secondary, 3, 3, none⟩], 5⟩ := by
  refine ⟨by decide, by decide, by decide, by decide⟩

/-- **C2** (amended). The merge is *not* atomic: its writes are separate,
independently committed statements with no enclosing transaction, and an
execution that fails after the demoting `update` of a primary `P` but before
the repointing `updateMany` leaves a committed store in which any dependent
of `P` links to a secondary — invariant 2 is violated in the partial state
that a subsequent read observes. -/
theorem claim2_merge_not_atomic (db : DB) (P d : Contact) (rest : List Contact)
    (oid now : Nat) (hP : P ∈ db.rows) (hd : d ∈ db.rows) (hne : d.id ≠ P.id)
    (hlink : d.linkedId = some P.id) :
    ¬ Invariant2 (applyWrites ((mergeWriteSeq (P :: rest) oid now).take 1) db) := by
  rw [mergeWriteSeq_take_one, applyWrites_singleton]
  intro hinv
  have hdmem : d ∈ (demoteWrite P.id oid now db).rows := by
    unfold demoteWrite
    refine List.mem_map.mpr ⟨d, hd, ?_⟩
    simp [demoteRow, hne]
  have hPmem : ({ P with linkedId := some oid, linkPrecedence := Precedence.secondary, updatedAt := now } : Contact) ∈ (demoteWrite P.id oid now db).rows := by
    unfold demoteWrite
    refine List.mem_map.mpr ⟨P, hP, ?_⟩
    simp [demoteRow]
  have := hinv d hdmem _ hPmem (by simpa using hlink)
  simp at this

/-- Witness for C2's amended theorem at a concrete store and merge. -/
theorem claim2_witness :
    ¬ Invariant2 (applyWrites
        ((mergeWriteSeq [⟨3, none, some "p", none, Precedence.primary, 2, 2, none⟩] 1 10).take 1)
        ⟨[⟨1, some "a", none, none, Precedence.primary, 0, 0, none⟩,
          ⟨2, some "a1", none, some 1, Precedence.secondary, 1, 1, none⟩,
          ⟨3, none, some "p", none, Precedence.primary, 2, 2, none⟩,
          ⟨4, none, some "q", some 3, Precedence.secondary, 3, 3, none⟩], 5⟩) :=
  claim2_merge_not_atomic _
    ⟨3, none, some "p", none, Precedence.primary, 2, 2, none⟩
    ⟨4, none, some "q", some 3, Precedence.secondary, 3, 3, none⟩ [] 1 10
    (by decide) (by decide) (by decide) rfl

/-! ## C9: termination and reachability of the expansion loop -/

/-- Ids reachable from the seed set by the traversal the loop performs:
from a contact, follow its `linkedId` to an existing row (regardless of
tombstones — `findUnique` has no filter), and from a primary reach every
non-deleted contact linked to it. -/
inductive ReachesId (db : DB) (seedIds : List Nat) : Nat → Prop where
  | seed : ∀ {i}, i ∈ seedIds → ReachesId db seedIds i
  | up : ∀ {i j} (c d : Contact), ReachesId db seedIds i → c ∈ db.rows → c.id = i →
      c.linkedId = some j → d ∈ db.rows → d.id = j → ReachesId db seedIds j
  | down : ∀ {i} (c d : Contact), ReachesId db seedIds i → c ∈ db.rows → c.id = i →
      c.linkPrecedence = Precedence.primary → d ∈ db.rows → d.linkedId = some i →
      d.deletedAt = none → ReachesId db seedIds d.id

/-- With duplicate-free ids, two rows with the same id are the same row. -/
theorem rows_id_inj {db : DB} (hnodup : (db.rows.map (fun c => c.id)).Nodup)
    {c d : Contact} (hc : c ∈ db.rows) (hd : d ∈ db.rows) (hid : c.id = d.id) : c = d :=
  List.inj_on_of_nodup_map hnodup hc hd hid

theorem find?_eq_of_unique {α : Type} (p : α → Bool) (l : List α) (a : α)
    (ha : a ∈ l) (hpa : p a = true) (huniq : ∀ b ∈ l, p b = true → b = a) :
    l.find? p = some a := by
  induction l with
  | nil => cases ha
  | cons x t ih =>
    by_cases hx : p x = true
    · rw [List.find?_cons_of_pos _ hx]
      rw [huniq x (List.mem_cons_self x t) hx]
    · rw [List.find?_cons_of_neg _ hx]
      rcases List.mem_cons.mp ha with h1 | h2
      · exact absurd (h1 ▸ hpa) hx
      · exact ih h2 (fun b hb hpb => huniq b (List.mem_cons_of_mem x hb) hpb)

/-- `findUnique` on a duplicate-free store returns exactly the row with the
requested id. -/
theorem findUniqueContact_eq {db : DB} (hnodup : (db.rows.map (fun c => c.id)).Nodup)
    {d : Contact} (hd : d ∈ db.rows) : findUniqueContact db d.id = some d := by
  unfold findUniqueContact
  refine find?_eq_of_unique _ _ d hd (by simp) ?_
  intro b hb hpb
  exact rows_id_inj hnodup hb hd (by simpa using hpb)

theorem mem_expandParent {db : DB} {processed : List Nat} {c pr : Contact}
    (h : pr ∈ expandParent db processed c) :
    pr ∈ db.rows ∧ c.linkedId = some pr.id ∧ pr.id ∉ processed := by
  unfold expandParent at h
  cases hl : c.linkedId with
  | none =>
    simp only [hl] at h
    cases h
  | some lid =>
    simp only [hl] at h
    by_cases hz : (lid != 0) = true
    · rw [if_pos hz] at h
      cases hf : findUniqueContact db lid with
      | none =>
        simp only [hf] at h
        cases h
      | some q =>
        simp only [hf] at h
        by_cases hq : q.id ∈ processed
        · rw [if_pos hq] at h; cases h
        · rw [if_neg hq] at h
          rw [List.mem_singleton] at h
          subst h
          have hqm := List.mem_of_find?_eq_some hf
          have hqi : pr.id = lid := by simpa using List.find?_some hf
          exact ⟨hqm, by rw [hqi], hq⟩
    · rw [if_neg hz] at h; cases h

theorem mem_expandChildren {db : DB} {processed : List Nat} {c s : Contact}
    (h : s ∈ expandChildren db processed c) :
    s ∈ db.rows ∧ c.linkPrecedence = Precedence.primary ∧ s.linkedId = some c.id
      ∧ s.deletedAt = none ∧ s.id ∉ processed := by
  unfold expandChildren at h
  by_cases hc : c.linkPrecedence = Precedence.primary
  · rw [if_pos hc] at h
    rw [List.mem_filter] at h
    obtain ⟨h1, h2⟩ := h
    unfold findSecondariesOf at h1
    rw [List.mem_filter] at h1
    obtain ⟨h3, h4⟩ := h1
    rw [Bool.and_eq_true] at h4
    exact ⟨h3, hc, by simpa using h4.1, by simpa using h4.2, by simpa using h2⟩
  · rw [if_neg hc] at h; cases h

theorem expandParent_covers {db : DB} (hnodup : (db.rows.map (fun c => c.id)).Nodup)
    {processed : List Nat} {c pr : Contact} (hl : c.linkedId = some pr.id)
    (hpr : pr ∈ db.rows) (hnz : pr.id ≠ 0) :
    pr.id ∈ processed ∨ pr ∈ expandParent db processed c := by
  unfold expandParent
  have hz : (pr.id != 0) = true := by simpa using hnz
  simp only [hl, hz, if_pos, findUniqueContact_eq hnodup hpr]
  by_cases hq : pr.id ∈ processed
  · exact Or.inl hq
  · rw [if_neg hq]
    exact Or.inr (List.mem_singleton.mpr rfl)

theorem expandChildren_covers {db : DB} {processed : List Nat} {c s : Contact}
    (hc : c.linkPrecedence = Precedence.primary) (hs : s ∈ db.rows)
    (hlink : s.linkedId = some c.id) (halive : s.deletedAt = none) :
    s.id ∈ processed ∨ s ∈ expandChildren db processed c := by
  by_cases hq : s.id ∈ processed
  · exact Or.inl hq
  · refine Or.inr ?_
    unfold expandChildren
    rw [if_pos hc]
    rw [List.mem_filter]
    refine ⟨?_, by simpa using hq⟩
    unfold findSecondariesOf
    rw [List.mem_filter]
    exact ⟨hs, by simp [hlink, halive]⟩

/-- Store ids not yet in the visited set: the termination measure's core. -/
def unseenCount (db : DB) (processed : List Nat) : Nat :=
  ((db.rows.map (fun c => c.id)).toFinset \ processed.toFinset).card

theorem unseenCount_lt (db : DB) (processed : List Nat) {c : Contact}
    (hc : c ∈ db.rows) (hnp : c.id ∉ processed) :
    unseenCount db (c.id :: processed) + 1 ≤ unseenCount db processed := by
  unfold unseenCount
  have hmem : c.id ∈ (db.rows.map (fun c => c.id)).toFinset \ processed.toFinset := by
    rw [Finset.mem_sdiff, List.mem_toFinset]
    exact ⟨List.mem_map.mpr ⟨c, hc, rfl⟩, by simpa using hnp⟩
  have hpos : 0 < ((db.rows.map (fun c => c.id)).toFinset \ processed.toFinset).card :=
    Finset.card_pos.mpr ⟨c.id, hmem⟩
  have hsub : (db.rows.map (fun c => c.id)).toFinset \ (c.id :: processed).toFinset
      ⊆ ((db.rows.map (fun c => c.id)).toFinset \ processed.toFinset).erase c.id := by
    intro x hx
    rw [Finset.mem_sdiff, List.toFinset_cons] at hx
    rw [Finset.mem_erase, Finset.mem_sdiff]
    refine ⟨?_, hx.1, fun hm => hx.2 (Finset.mem_insert_of_mem hm)⟩
    intro hxe
    exact hx.2 (hxe ▸ Finset.mem_insert_self c.id processed.toFinset)
  have hcard := Finset.card_le_card hsub
  rw [Finset.card_erase_of_mem hmem] at hcard
  omega

theorem expandParent_len (db : DB) (processed : List Nat) (c : Contact) :
    (expandParent db processed c).length ≤ 1 := by
  cases h : c.linkedId with
  | none => simp [expandParent, h]
  | some lid =>
    by_cases hz : (lid != 0) = true
    · cases hf : findUniqueContact db lid with
      | none => simp [expandParent, h, hz, hf]
      | some q =>
        by_cases hq : q.id ∈ processed
        · simp [expandParent, h, hz, hf, hq]
        · simp [expandParent, h, hz, hf, hq]
    · simp [expandParent, h, hz]

theorem expandChildren_len (db : DB) (processed : List Nat) (c : Contact) :
    (expandChildren db processed c).length ≤ db.rows.length := by
  unfold expandChildren
  by_cases hc : c.linkPrecedence = Precedence.primary
  · rw [if_pos hc]
    exact Nat.le_trans (List.length_filter_le _ _) (List.length_filter_le _ _)
  · rw [if_neg hc]; simp

theorem expandLoop_step_mem (db : DB) (fuel : Nat) (c : Contact) (rest : List Contact)
    (processed : List Nat) (hmem : c.id ∈ processed) :
    expandLoop db (fuel + 1) (c :: rest) processed = expandLoop db fuel rest processed := by
  simp [expandLoop, hmem]

theorem expandLoop_step_new (db : DB) (fuel : Nat) (c : Contact) (rest : List Contact)
    (processed : List Nat) (hmem : c.id ∉ processed) :
    expandLoop db (fuel + 1) (c :: rest) processed
      = expandLoop db fuel
          ((expandChildren db (c.id :: processed) c).reverse
            ++ expandParent db (c.id :: processed) c ++ rest)
          (c.id :: processed) := by
  simp [expandLoop, hmem]

theorem expandLoop_terminates (db : DB) : ∀ (fuel : Nat) (stack : List Contact)
    (processed : List Nat), (∀ c ∈ stack, c ∈ db.rows) →
    stack.length + unseenCount db processed * (db.rows.length + 2) ≤ fuel →
    ∃ out, expandLoop db fuel stack processed = some out := by
  intro fuel
  induction fuel with
  | zero =>
    intro stack processed hsub hm
    cases stack with
    | nil => exact ⟨processed, rfl⟩
    | cons c rest => simp at hm
  | succ fuel ih =>
    intro stack processed hsub hm
    cases stack with
    | nil => exact ⟨processed, rfl⟩
    | cons c rest =>
      by_cases hmem : c.id ∈ processed
      · rw [expandLoop_step_mem db fuel c rest processed hmem]
        apply ih rest processed (fun x hx => hsub x (List.mem_cons_of_mem c hx))
        rw [List.length_cons] at hm
        generalize hu : unseenCount db processed * (db.rows.length + 2) = u at hm ⊢
        omega
      · rw [expandLoop_step_new db fuel c rest processed hmem]
        apply ih
        · intro x hx
          rcases List.mem_append.mp hx with hx1 | hx2
          · rcases List.mem_append.mp hx1 with hx3 | hx4
            · exact (mem_expandChildren (List.mem_reverse.mp hx3)).1
            · exact (mem_expandParent hx4).1
          · exact hsub x (List.mem_cons_of_mem c hx2)
        · have h1 := unseenCount_lt db processed (hsub c (List.mem_cons_self c rest)) hmem
          have h2 := expandChildren_len db (c.id :: processed) c
          have h3 := expandParent_len db (c.id :: processed) c
          have hmul : unseenCount db (c.id :: processed) * (db.rows.length + 2)
              + (db.rows.length + 2)
              ≤ unseenCount db processed * (db.rows.length + 2) := by
            have hstep := Nat.mul_le_mul_right (db.rows.length + 2) h1
            rw [Nat.add_mul, Nat.one_mul] at hstep
            exact hstep
          rw [List.length_append, List.length_append, List.length_reverse,
            List.length_cons] at *
          generalize hu1 : unseenCount db (c.id :: processed) * (db.rows.length + 2) = u1
            at hmul ⊢
          generalize hu2 : unseenCount db processed * (db.rows.length + 2) = u2 at hmul hm
          omega

theorem expandLoop_sound (db : DB) (seedIds : List Nat) : ∀ (fuel : Nat)
    (stack : List Contact) (processed out : List Nat),
    (∀ c ∈ stack, c ∈ db.rows) →
    (∀ c ∈ stack, ReachesId db seedIds c.id) →
    (∀ i ∈ processed, ReachesId db seedIds i) →
    expandLoop db fuel stack processed = some out →
    ∀ i ∈ out, ReachesId db seedIds i := by
  intro fuel
  induction fuel with
  | zero =>
    intro stack processed out h1 h2 h3 hrun
    cases stack with
    | nil =>
      have hout : processed = out := by simpa [expandLoop] using hrun
      exact hout ▸ h3
    | cons c rest => simp [expandLoop] at hrun
  | succ fuel ih =>
    intro stack processed out h1 h2 h3 hrun
    cases stack with
    | nil =>
      have hout : processed = out := by simpa [expandLoop] using hrun
      exact hout ▸ h3
    | cons c rest =>
      by_cases hmem : c.id ∈ processed
      · rw [expandLoop_step_mem db fuel c rest processed hmem] at hrun
        exact ih rest processed out (fun x hx => h1 x (List.mem_cons_of_mem c hx))
          (fun x hx => h2 x (List.mem_cons_of_mem c hx)) h3 hrun
      · rw [expandLoop_step_new db fuel c rest processed hmem] at hrun
        have hcrow := h1 c (List.mem_cons_self c rest)
        have hcreach := h2 c (List.mem_cons_self c rest)
        apply ih _ _ out ?_ ?_ ?_ hrun
        · intro x hx
          rcases List.mem_append.mp hx with hx1 | hx2
          · rcases List.mem_append.mp hx1 with hx3 | hx4
            · exact (mem_expandChildren (List.mem_reverse.mp hx3)).1
            · exact (mem_expandParent hx4).1
          · exact h1 x (List.mem_cons_of_mem c hx2)
        · intro x hx
          rcases List.mem_append.mp hx with hx1 | hx2
          · rcases List.mem_append.mp hx1 with hx3 | hx4
            · obtain ⟨hxr, hxp, hxl, hxa, hxn⟩ := mem_expandChildren (List.mem_reverse.mp hx3)
              exact ReachesId.down c x hcreach hcrow rfl hxp hxr hxl hxa
            · obtain ⟨hxr, hxl, hxn⟩ := mem_expandParent hx4
              exact ReachesId.up c x hcreach hcrow rfl hxl hxr rfl
          · exact h2 x (List.mem_cons_of_mem c hx2)
        · intro i hi
          rcases List.mem_cons.mp hi with hi1 | hi2
          · exact hi1 ▸ hcreach
          · exact h3 i hi2

/-- One traversal step at the id level: exactly the neighbours one loop
iteration pushes (parent via `findUnique`, live children of a primary). -/
def NbrStep (db : DB) (i j : Nat) : Prop :=
  (∃ c ∈ db.rows, c.id = i ∧ c.linkedId = some j ∧ ∃ d ∈ db.rows, d.id = j)
  ∨ (∃ c ∈ db.rows, c.id = i ∧ c.linkPrecedence = Precedence.primary
      ∧ ∃ d ∈ db.rows, d.id = j ∧ d.linkedId = some i ∧ d.deletedAt = none)

theorem expandLoop_closed (db : DB) (hnodup : (db.rows.map (fun c => c.id)).Nodup)
    (hnz : ∀ c ∈ db.rows, c.id ≠ 0) : ∀ (fuel : Nat) (stack : List Contact)
    (processed out : List Nat),
    (∀ c ∈ stack, c ∈ db.rows) →
    (∀ i ∈ processed, ∀ j, NbrStep db i j → j ∈ processed ∨ ∃ s ∈ stack, s.id = j) →
    expandLoop db fuel stack processed = some out →
    (∀ i ∈ processed, i ∈ out) ∧ (∀ s ∈ stack, s.id ∈ out)
      ∧ (∀ i ∈ out, ∀ j, NbrStep db i j → j ∈ out) := by
  intro fuel
  induction fuel with
  | zero =>
    intro stack processed out h1 h2 hrun
    cases stack with
    | nil =>
      have hout : processed = out := by simpa [expandLoop] using hrun
      subst hout
      refine ⟨fun i hi => hi, by simp, ?_⟩
      intro i hi j hj
      rcases h2 i hi j hj with hp | ⟨s, hs, _⟩
      · exact hp
      · cases hs
    | cons c rest => simp [expandLoop] at hrun
  | succ fuel ih =>
    intro stack processed out h1 h2 hrun
    cases stack with
    | nil =>
      have hout : processed = out := by simpa [expandLoop] using hrun
      subst hout
      refine ⟨fun i hi => hi, by simp, ?_⟩
      intro i hi j hj
      rcases h2 i hi j hj with hp | ⟨s, hs, _⟩
      · exact hp
      · cases hs
    | cons c rest =>
      by_cases hmem : c.id ∈ processed
      · rw [expandLoop_step_mem db fuel c rest processed hmem] at hrun
        have h2' : ∀ i ∈ processed, ∀ j, NbrStep db i j →
            j ∈ processed ∨ ∃ s ∈ rest, s.id = j := by
          intro i hi j hj
          rcases h2 i hi j hj with hp | ⟨s, hs, hsid⟩
          · exact Or.inl hp
          · rcases List.mem_cons.mp hs with hs1 | hs2
            · exact Or.inl (hsid ▸ hs1 ▸ hmem)
            · exact Or.inr ⟨s, hs2, hsid⟩
        obtain ⟨ho1, ho2, ho3⟩ := ih rest processed out
          (fun x hx => h1 x (List.mem_cons_of_mem c hx)) h2' hrun
        refine ⟨ho1, ?_, ho3⟩
        intro s hs
        rcases List.mem_cons.mp hs with hs1 | hs2
        · exact ho1 s.id (hs1 ▸ hmem)
        · exact ho2 s hs2
      · rw [expandLoop_step_new db fuel c rest processed hmem] at hrun
        have hcrow := h1 c (List.mem_cons_self c rest)
        have h2' : ∀ i ∈ c.id :: processed, ∀ j, NbrStep db i j →
            j ∈ c.id :: processed ∨ ∃ s ∈ (expandChildren db (c.id :: processed) c).reverse
              ++ expandParent db (c.id :: processed) c ++ rest, s.id = j := by
          intro i hi j hj
          rcases List.mem_cons.mp hi with hi1 | hi2
          · subst hi1
            rcases hj with ⟨c', hc', hc'id, hl, d, hd, hdid⟩ | hdown
            · have hcc : c' = c := rows_id_inj hnodup hc' hcrow hc'id
              subst hcc
              have hld : c'.linkedId = some d.id := hdid ▸ hl
              rcases expandParent_covers hnodup hld hd (hnz d hd) with hin | hpush
              · exact Or.inl (hdid ▸ hin)
              · refine Or.inr ⟨d, ?_, hdid⟩
                exact List.mem_append.mpr (Or.inl (List.mem_append.mpr (Or.inr hpush)))
            · obtain ⟨c', hc', hc'id, hprim, d, hd, hdid, hdl, halive⟩ := hdown
              have hcc : c' = c := rows_id_inj hnodup hc' hcrow hc'id
              subst hcc
              rcases @expandChildren_covers db (c'.id :: processed) c' d
                  hprim hd hdl halive with hin | hpush
              · exact Or.inl (hdid ▸ hin)
              · refine Or.inr ⟨d, ?_, hdid⟩
                exact List.mem_append.mpr
                  (Or.inl (List.mem_append.mpr (Or.inl (List.mem_reverse.mpr hpush))))
          · rcases h2 i hi2 j hj with hp | ⟨s, hs, hsid⟩
            · exact Or.inl (List.mem_cons_of_mem _ hp)
            · rcases List.mem_cons.mp hs with hs1 | hs2
              · exact Or.inl (hsid ▸ hs1 ▸ List.mem_cons_self c.id processed)
              · exact Or.inr ⟨s, List.mem_append.mpr (Or.inr hs2), hsid⟩
        have hrows : ∀ x ∈ (expandChildren db (c.id :: processed) c).reverse
            ++ expandParent db (c.id :: processed) c ++ rest, x ∈ db.rows := by
          intro x hx
          rcases List.mem_append.mp hx with hx1 | hx2
          · rcases List.mem_append.mp hx1 with hx3 | hx4
            · exact (mem_expandChildren (List.mem_reverse.mp hx3)).1
            · exact (mem_expandParent hx4).1
          · exact h1 x (List.mem_cons_of_mem c hx2)
        obtain ⟨ho1, ho2, ho3⟩ := ih _ _ out hrows h2' hrun
        refine ⟨fun i hi => ho1 i (List.mem_cons_of_mem _ hi), ?_, ho3⟩
        intro s hs
        rcases List.mem_cons.mp hs with hs1 | hs2
        · exact hs1 ▸ ho1 c.id (List.mem_cons_self _ _)
        · exact ho2 s (List.mem_append.mpr (Or.inr hs2))

/-- The loop computes exactly the ids reachable from the seeds, and it
terminates within the fuel bound. -/
theorem relatedIds_spec (db : DB) (matched : List Contact)
    (hnodup : (db.rows.map (fun c => c.id)).Nodup)
    (hnz : ∀ c ∈ db.rows, c.id ≠ 0)
    (hseeds : ∀ c ∈ matched, c ∈ db.rows) :
    ∃ ids, relatedIds db matched = some ids
      ∧ ∀ i, i ∈ ids ↔ ReachesId db (matched.map (fun c => c.id)) i := by
  have hbound : (matched.reverse).length + unseenCount db [] * (db.rows.length + 2)
      ≤ expandFuelBound db matched := by
    rw [List.length_reverse]
    unfold expandFuelBound unseenCount
    have hc1 : ((db.rows.map (fun c => c.id)).toFinset \ ([] : List Nat).toFinset).card
        ≤ db.rows.length + 1 := by
      refine Nat.le_trans (Nat.le_trans (Finset.card_le_card (Finset.sdiff_subset))
        (List.toFinset_card_le _)) ?_
      rw [List.length_map]
      exact Nat.le_succ _
    have := Nat.mul_le_mul_right (db.rows.length + 2) hc1
    omega
  obtain ⟨out, hout⟩ := expandLoop_terminates db (expandFuelBound db matched)
    matched.reverse [] (fun c hc => hseeds c (List.mem_reverse.mp hc)) hbound
  refine ⟨out, hout, ?_⟩
  intro i
  constructor
  · intro hi
    exact expandLoop_sound db (matched.map (fun c => c.id)) _ _ _ out
      (fun c hc => hseeds c (List.mem_reverse.mp hc))
      (fun c hc => ReachesId.seed (List.mem_map.mpr ⟨c, List.mem_reverse.mp hc, rfl⟩))
      (by intro i hi; cases hi) hout i hi
  · intro hreach
    obtain ⟨ho1, ho2, ho3⟩ := expandLoop_closed db hnodup hnz _ _ _ out
      (fun c hc => hseeds c (List.mem_reverse.mp hc)) (by intro i hi; cases hi) hout
    induction hreach with
    | seed h =>
      obtain ⟨s, hs, hsid⟩ := List.mem_map.mp h
      exact hsid ▸ ho2 s (List.mem_reverse.mpr hs)
    | up c d hr hc hcid hl hd hdid ihr =>
      exact ho3 _ ihr _ (Or.inl ⟨c, hc, hcid, hl, d, hd, hdid⟩)
    | down c d hr hc hcid hprim hd hdl halive ihr =>
      exact ho3 _ ihr _ (Or.inr ⟨c, hc, hcid, hprim, d, hd, rfl, hdl, halive⟩)

/-- Membership-level specification of `getAllRelatedContacts`. -/
theorem getAllRelatedContacts_spec (db : DB) (matched : List Contact)
    (hnodup : (db.rows.map (fun c => c.id)).Nodup)
    (hnz : ∀ c ∈ db.rows, c.id ≠ 0)
    (hseeds : ∀ c ∈ matched, c ∈ db.rows) :
    ∃ ids related, relatedIds db matched = some ids
      ∧ getAllRelatedContacts db matched = some related
      ∧ related = fetchByIds db ids
      ∧ (∀ i, i ∈ ids ↔ ReachesId db (matched.map (fun c => c.id)) i)
      ∧ (∀ c, c ∈ related ↔ c ∈ db.rows ∧ c.deletedAt = none
          ∧ ReachesId db (matched.map (fun c => c.id)) c.id) := by
  obtain ⟨ids, hids, hiff⟩ := relatedIds_spec db matched hnodup hnz hseeds
  refine ⟨ids, fetchByIds db ids, hids, ?_, rfl, hiff, ?_⟩
  · unfold getAllRelatedContacts
    rw [hids]
    rfl
  · intro c
    unfold fetchByIds
    rw [mem_sortByCreated, List.mem_filter]
    constructor
    · rintro ⟨hc, hcond⟩
      rw [Bool.and_eq_true] at hcond
      refine ⟨hc, by simpa using hcond.2, (hiff c.id).mp (by simpa using hcond.1)⟩
    · rintro ⟨hc, hal, hr⟩
      refine ⟨hc, ?_⟩
      rw [Bool.and_eq_true]
      exact ⟨by simpa using (hiff c.id).mpr hr, by simpa using hal⟩

theorem findManyMatches_subset (db : DB) (email phoneNumber : Option String) :
    ∀ c ∈ findManyMatches db email phoneNumber, c ∈ db.rows := by
  intro c hc
  unfold findManyMatches at hc
  rw [mem_sortByCreated, List.mem_filter] at hc
  exact hc.1

/-- **C9** (confirmed). On any store with well-formed ids — arbitrary, even
cyclic or otherwise malformed `linkedId` data is allowed — the visited-set
worklist drains within its fuel bound (the loop terminates), and the
returned set is exactly the non-deleted rows whose id is reachable from the
match seeds through the traversal's link relation. -/
theorem claim9_expansion_terminates_and_reaches (db : DB) (email phoneNumber : Option String)
    (hnodup : (db.rows.map (fun c => c.id)).Nodup)
    (hnz : ∀ c ∈ db.rows, c.id ≠ 0) :
    ∃ related, getAllRelatedContacts db (findManyMatches db email phoneNumber) = some related
      ∧ ∀ c, c ∈ related ↔ (c ∈ db.rows ∧ Alive c
          ∧ ReachesId db ((findManyMatches db email phoneNumber).map (fun c => c.id)) c.id) := by
  obtain ⟨ids, related, hids, hrel, hfetch, hiff, hmem⟩ :=
    getAllRelatedContacts_spec db (findManyMatches db email phoneNumber) hnodup hnz
      (findManyMatches_subset db email phoneNumber)
  exact ⟨related, hrel, hmem⟩

/-- Witness for C9 at a concrete two-row store. -/
theorem claim9_witness :
    ∃ related, getAllRelatedContacts
        ⟨[⟨1, some "a", none, none, Precedence.primary, 0, 0, none⟩,
          ⟨2, some "b", none, some 1, Precedence.secondary, 1, 1, none⟩], 3⟩
        (findManyMatches
          ⟨[⟨1, some "a", none, none, Precedence.primary, 0, 0, none⟩,
            ⟨2, some "b", none, some 1, Precedence.secondary, 1, 1, none⟩], 3⟩
          (some "a") none) = some related
      ∧ ∀ c, c ∈ related ↔ (c ∈ (⟨[⟨1, some "a", none, none, Precedence.primary, 0, 0, none⟩,
            ⟨2, some "b", none, some 1, Precedence.secondary, 1, 1, none⟩], 3⟩ : DB).rows
          ∧ Alive c
          ∧ ReachesId ⟨[⟨1, some "a", none, none, Precedence.primary, 0, 0, none⟩,
              ⟨2, some "b", none, some 1, Precedence.secondary, 1, 1, none⟩], 3⟩
            ((findManyMatches
              ⟨[⟨1, some "a", none, none, Precedence.primary, 0, 0, none⟩,
                ⟨2, some "b", none, some 1, Precedence.secondary, 1, 1, none⟩], 3⟩
              (some "a") none).map (fun c => c.id)) c.id) :=
  claim9_expansion_terminates_and_reaches _ (some "a") none (by decide) (by decide)

/-! ## C7: tombstone filtering of the reads -/

/-- **C7** (counterexample). The linked-primary lookup (`findUnique`) has no
tombstone filter: on a store whose alive secondary (id 2) links to a
tombstoned primary (id 1), the expansion reads and processes the tombstoned
row — its id lands in the loop's visited/`contactIds` set. -/
theorem claim7_counterexample :
    relatedIds
        ⟨[⟨1, some "x", none, none, Precedence.primary, 0, 0, some 9⟩,
          ⟨2, some "a", none, some 1, Precedence.secondary, 1, 1, none⟩], 3⟩
        (findManyMatches
          ⟨[⟨1, some "x", none, none, Precedence.primary, 0, 0, some 9⟩,
            ⟨2, some "a", none, some 1, Precedence.secondary, 1, 1, none⟩], 3⟩
          (some "a") none) = some [1, 2]
    ∧ (⟨1, some "x", none, none, Precedence.primary, 0, 0, some 9⟩ : Contact).deletedAt ≠ none
    ∧ (⟨1, some "x", none, none, Precedence.primary, 0, 0, some 9⟩ : Contact)
        ∈ (⟨[⟨1, some "x", none, none, Precedence.primary, 0, 0, some 9⟩,
            ⟨2, some "a", none, some 1, Precedence.secondary, 1, 1, none⟩], 3⟩ : DB).rows := by
  refine ⟨by decide, by decide, by decide⟩

/-- **C7** (amended). Every read *except* the linked-primary `findUnique`
excludes tombstoned rows: the matcher, the children query, the final
related-contacts fetch, and the merge refetch never return a tombstoned
contact (the traversal may read a tombstoned linked primary, but it is never
returned). -/
theorem claim7_reads_exclude_tombstones (db : DB) (email phoneNumber : Option String)
    (pid : Nat) :
    (∀ c ∈ findManyMatches db email phoneNumber, c.deletedAt = none)
    ∧ (∀ c ∈ findSecondariesOf db pid, c.deletedAt = none)
    ∧ (∀ l, getAllRelatedContacts db (findManyMatches db email phoneNumber) = some l →
        ∀ c ∈ l, c.deletedAt = none)
    ∧ (∀ c ∈ refetchFamily db pid, c.deletedAt = none) := by
  refine ⟨?_, ?_, ?_, ?_⟩
  · intro c hc
    unfold findManyMatches at hc
    rw [mem_sortByCreated, List.mem_filter, Bool.and_eq_true] at hc
    simpa using hc.2.2
  · intro c hc
    unfold findSecondariesOf at hc
    rw [List.mem_filter, Bool.and_eq_true] at hc
    simpa using hc.2.2
  · intro l hl c hc
    unfold getAllRelatedContacts at hl
    cases hids : relatedIds db (findManyMatches db email phoneNumber) with
    | none => rw [hids] at hl; cases hl
    | some ids =>
      rw [hids] at hl
      have hl' : fetchByIds db ids = l := by simpa using hl
      rw [← hl'] at hc
      unfold fetchByIds at hc
      rw [mem_sortByCreated, List.mem_filter, Bool.and_eq_true] at hc
      simpa using hc.2.2
  · intro c hc
    unfold refetchFamily at hc
    rw [mem_sortByCreated, List.mem_filter, Bool.and_eq_true] at hc
    simpa using hc.2.2

/-- Witness for C7's amended theorem: the matched alive secondary of the
counterexample store is indeed returned tombstone-free. -/
theorem claim7_witness :
    (⟨2, some "a", none, some 1, Precedence.secondary, 1, 1, none⟩ : Contact).deletedAt
      = none :=
  (claim7_reads_exclude_tombstones
    ⟨[⟨1, some "x", none, none, Precedence.primary, 0, 0, some 9⟩,
      ⟨2, some "a", none, some 1, Precedence.secondary, 1, 1, none⟩], 3⟩
    (some "a") none 1).1
    ⟨2, some "a", none, some 1, Precedence.secondary, 1, 1, none⟩ (by decide)

/-! ## C3: the data-model invariants are preserved -/

/-- The data-model well-formedness of a store (§3 of the spec): unique,
positive, monotonically assigned ids (`SERIAL`, enforced foreign key), a
`linkedId` only on secondaries that resolves to a live primary, link depth
one, and referential integrity of `linkedId`. -/
def WF (db : DB) : Prop :=
  (db.rows.map (fun c => c.id)).Nodup
  ∧ (∀ c ∈ db.rows, c.id ≠ 0)
  ∧ (∀ c ∈ db.rows, c.id < db.nextId)
  ∧ 0 < db.nextId
  ∧ (∀ c ∈ db.rows, Alive c → c.linkPrecedence = Precedence.primary → c.linkedId = none)
  ∧ (∀ c ∈ db.rows, Alive c → c.linkPrecedence = Precedence.secondary →
      ∃ p ∈ db.rows, c.linkedId = some p.id ∧ Alive p ∧ p.linkPrecedence = Precedence.primary)
  ∧ Invariant2 db
  ∧ (∀ c ∈ db.rows, ∀ j, c.linkedId = some j → ∃ d ∈ db.rows, d.id = j)

instance wfDecidable (db : DB) : Decidable (WF db) := by
  unfold WF Invariant2 Alive
  infer_instance

theorem wf_nodup {db : DB} (h : WF db) : (db.rows.map (fun c => c.id)).Nodup := h.1

theorem wf_idNz {db : DB} (h : WF db) : ∀ c ∈ db.rows, c.id ≠ 0 := h.2.1

theorem wf_idLt {db : DB} (h : WF db) : ∀ c ∈ db.rows, c.id < db.nextId := h.2.2.1

theorem wf_nextPos {db : DB} (h : WF db) : 0 < db.nextId := h.2.2.2.1

theorem wf_primNoLink {db : DB} (h : WF db) :
    ∀ c ∈ db.rows, Alive c → c.linkPrecedence = Precedence.primary → c.linkedId = none :=
  h.2.2.2.2.1

theorem wf_secLink {db : DB} (h : WF db) :
    ∀ c ∈ db.rows, Alive c → c.linkPrecedence = Precedence.secondary →
      ∃ p ∈ db.rows, c.linkedId = some p.id ∧ Alive p ∧ p.linkPrecedence = Precedence.primary :=
  h.2.2.2.2.2.1

theorem wf_inv2 {db : DB} (h : WF db) : Invariant2 db := h.2.2.2.2.2.2.1

theorem wf_linkEx {db : DB} (h : WF db) :
    ∀ c ∈ db.rows, ∀ j, c.linkedId = some j → ∃ d ∈ db.rows, d.id = j :=
  h.2.2.2.2.2.2.2

/-- No stored row can reference the not-yet-assigned next id. -/
theorem wf_no_link_to_next {db : DB} (h : WF db) :
    ∀ c ∈ db.rows, c.linkedId ≠ some db.nextId := by
  intro c hc hlink
  obtain ⟨d, hd, hdid⟩ := wf_linkEx h c hc db.nextId hlink
  exact absurd (hdid ▸ wf_idLt h d hd) (Nat.lt_irrefl _)

theorem wf_createContact {db : DB} (h : WF db) (now : Nat) (email phoneNumber : Option String)
    (linkedId : Option Nat) (prec : Precedence)
    (hsec : prec = Precedence.secondary →
      ∃ p ∈ db.rows, linkedId = some p.id ∧ Alive p ∧ p.linkPrecedence = Precedence.primary)
    (hprim : prec = Precedence.primary → linkedId = none) :
    WF (createContact db now email phoneNumber linkedId prec).2 := by
  have hnewid : ∀ c ∈ db.rows, c.id ≠ db.nextId := by
    intro c hc he
    exact absurd (he ▸ wf_idLt h c hc) (Nat.lt_irrefl _)
  unfold createContact
  refine ⟨?_, ?_, ?_, ?_, ?_, ?_, ?_, ?_⟩
  · rw [List.map_append, List.nodup_append]
    refine ⟨wf_nodup h, by simp, ?_⟩
    intro i hi
    obtain ⟨c, hc, hcid⟩ := List.mem_map.mp hi
    simpa using fun he => (hcid ▸ hnewid c hc : i ≠ db.nextId) (by simpa using he)
  · intro c hc
    rcases List.mem_append.mp hc with h1 | h2
    · exact wf_idNz h c h1
    · rw [List.mem_singleton] at h2
      subst h2
      exact Nat.pos_iff_ne_zero.mp (wf_nextPos h)
  · intro c hc
    rcases List.mem_append.mp hc with h1 | h2
    · exact Nat.lt_trans (wf_idLt h c h1) (Nat.lt_succ_self _)
    · rw [List.mem_singleton] at h2
      subst h2
      exact Nat.lt_succ_self _
  · exact Nat.lt_trans (wf_nextPos h) (Nat.lt_succ_self _)
  · intro c hc hca hcp
    rcases List.mem_append.mp hc with h1 | h2
    · exact wf_primNoLink h c h1 hca hcp
    · rw [List.mem_singleton] at h2
      subst h2
      exact hprim hcp
  · intro c hc hca hcp
    rcases List.mem_append.mp hc with h1 | h2
    · obtain ⟨p, hp, hl, hpa, hpp⟩ := wf_secLink h c h1 hca hcp
      exact ⟨p, List.mem_append.mpr (Or.inl hp), hl, hpa, hpp⟩
    · rw [List.mem_singleton] at h2
      subst h2
      obtain ⟨p, hp, hl, hpa, hpp⟩ := hsec hcp
      exact ⟨p, List.mem_append.mpr (Or.inl hp), hl, hpa, hpp⟩
  · intro c hc d hd hlink
    rcases List.mem_append.mp hc with hc1 | hc2 <;>
      rcases List.mem_append.mp hd with hd1 | hd2
    · exact wf_inv2 h c hc1 d hd1 hlink
    · rw [List.mem_singleton] at hd2
      subst hd2
      exact absurd hlink (wf_no_link_to_next h c hc1)
    · rw [List.mem_singleton] at hc2
      subst hc2
      cases prec with
      | primary =>
        rw [hprim rfl] at hlink
        cases hlink
      | secondary =>
        obtain ⟨p, hp, hl, hpa, hpp⟩ := hsec rfl
        have : p = d := by
          apply rows_id_inj (wf_nodup h) hp hd1
          have := hl ▸ hlink
          simpa using this
        exact this ▸ hpp
    · rw [List.mem_singleton] at hc2 hd2
      subst hc2
      subst hd2
      cases prec with
      | primary =>
        rw [hprim rfl] at hlink
      | secondary =>
        obtain ⟨p, hp, hl, hpa, hpp⟩ := hsec rfl
        rw [hl] at hlink
        have hpid : p.id = db.nextId := by simpa using hlink
        exact absurd (hpid ▸ wf_idLt h p hp) (Nat.lt_irrefl _)
  · intro c hc j hlink
    rcases List.mem_append.mp hc with h1 | h2
    · obtain ⟨d, hd, hdid⟩ := wf_linkEx h c h1 j hlink
      exact ⟨d, List.mem_append.mpr (Or.inl hd), hdid⟩
    · rw [List.mem_singleton] at h2
      subst h2
      cases prec with
      | primary =>
        rw [hprim rfl] at hlink
        cases hlink
      | secondary =>
        obtain ⟨p, hp, hl, hpa, hpp⟩ := hsec rfl
        rw [hl] at hlink
        exact ⟨p, List.mem_append.mpr (Or.inl hp), by simpa using hlink⟩

/-- The net effect of the merge loop on one row: a non-surviving primary is
demoted, a dependent of a non-surviving primary is repointed, everything
else is untouched. -/
def mergedRow (otherIds : List Nat) (oid now : Nat) (c : Contact) : Contact :=
  if c.id ∈ otherIds then
    { c with linkedId := some oid, linkPrecedence := Precedence.secondary, updatedAt := now }
  else if c.linkedId.any (fun j => decide (j ∈ otherIds)) then { c with linkedId := some oid }
  else c

theorem linkedAny_iff (c : Contact) (otherIds : List Nat) :
    c.linkedId.any (fun j => decide (j ∈ otherIds)) = true
      ↔ ∃ j, c.linkedId = some j ∧ j ∈ otherIds := by
  cases hl : c.linkedId with
  | none => simp [Option.any]
  | some j => simp [Option.any]

theorem mergedRow_id (otherIds : List Nat) (oid now : Nat) (c : Contact) :
    (mergedRow otherIds oid now c).id = c.id := by
  unfold mergedRow
  by_cases h1 : c.id ∈ otherIds
  · rw [if_pos h1]
  · rw [if_neg h1]
    by_cases h2 : c.linkedId.any (fun j => decide (j ∈ otherIds)) = true
    · rw [if_pos h2]
    · rw [if_neg h2]

theorem mergedRow_fields (otherIds : List Nat) (oid now : Nat) (c : Contact) :
    (mergedRow otherIds oid now c).email = c.email
    ∧ (mergedRow otherIds oid now c).phoneNumber = c.phoneNumber
    ∧ (mergedRow otherIds oid now c).createdAt = c.createdAt
    ∧ (mergedRow otherIds oid now c).deletedAt = c.deletedAt := by
  unfold mergedRow
  by_cases h1 : c.id ∈ otherIds
  · rw [if_pos h1]
    exact ⟨rfl, rfl, rfl, rfl⟩
  · rw [if_neg h1]
    by_cases h2 : c.linkedId.any (fun j => decide (j ∈ otherIds)) = true
    · rw [if_pos h2]
      exact ⟨rfl, rfl, rfl, rfl⟩
    · rw [if_neg h2]
      exact ⟨rfl, rfl, rfl, rfl⟩

theorem mergedRow_cases (otherIds : List Nat) (oid now : Nat) (c : Contact) :
    (c.id ∈ otherIds ∧ mergedRow otherIds oid now c
        = { c with linkedId := some oid, linkPrecedence := Precedence.secondary,
                   updatedAt := now })
    ∨ (c.id ∉ otherIds ∧ (∃ j, c.linkedId = some j ∧ j ∈ otherIds)
        ∧ mergedRow otherIds oid now c = { c with linkedId := some oid })
    ∨ (c.id ∉ otherIds ∧ (∀ j, c.linkedId = some j → j ∉ otherIds)
        ∧ mergedRow otherIds oid now c = c) := by
  unfold mergedRow
  by_cases h1 : c.id ∈ otherIds
  · exact Or.inl ⟨h1, by rw [if_pos h1]⟩
  · rw [if_neg h1]
    by_cases h2 : c.linkedId.any (fun j => decide (j ∈ otherIds)) = true
    · exact Or.inr (Or.inl ⟨h1, (linkedAny_iff c otherIds).mp h2, by rw [if_pos h2]⟩)
    · refine Or.inr (Or.inr ⟨h1, ?_, by rw [if_neg h2]⟩)
      intro j hj hjm
      exact h2 ((linkedAny_iff c otherIds).mpr ⟨j, hj, hjm⟩)

theorem mergedRow_untouched (otherIds : List Nat) (oid now : Nat) {c : Contact}
    (h1 : c.id ∉ otherIds) (h2 : ∀ j, c.linkedId = some j → j ∉ otherIds) :
    mergedRow otherIds oid now c = c := by
  unfold mergedRow
  rw [if_neg h1, if_neg]
  intro hany
  obtain ⟨j, hj, hjm⟩ := (linkedAny_iff c otherIds).mp hany
  exact h2 j hj hjm

theorem map_congr_mem {α β : Type} (l : List α) (f g : α → β)
    (h : ∀ a ∈ l, f a = g a) : l.map f = l.map g := by
  induction l with
  | nil => rfl
  | cons a t ih =>
    rw [List.map_cons, List.map_cons, h a (List.mem_cons_self a t),
      ih (fun b hb => h b (List.mem_cons_of_mem a hb))]

theorem map_eq_self_mem {α : Type} (l : List α) (f : α → α)
    (h : ∀ a ∈ l, f a = a) : l.map f = l := by
  induction l with
  | nil => rfl
  | cons a t ih =>
    rw [List.map_cons, h a (List.mem_cons_self a t),
      ih (fun b hb => h b (List.mem_cons_of_mem a hb))]

/-- The whole merge write sequence, as one map over the rows. -/
theorem applyWrites_merge (oid now : Nat) : ∀ (others : List Contact) (db : DB),
    (db.rows.map (fun c => c.id)).Nodup →
    (∀ p ∈ others, p ∈ db.rows) →
    (∀ p ∈ others, p.linkedId = none) →
    ((others.map (fun p => p.id)).Nodup) →
    oid ∉ others.map (fun p => p.id) →
    applyWrites (mergeWriteSeq others oid now) db
      = ⟨db.rows.map (mergedRow (others.map (fun p => p.id)) oid now), db.nextId⟩ := by
  intro others
  induction others with
  | nil =>
    intro db hnodup hsub hnolink hndo hoid
    have hmap : db.rows.map (mergedRow [] oid now) = db.rows :=
      map_eq_self_mem _ _ (fun c _ => mergedRow_untouched [] oid now
        (by simp) (fun j _ => by simp))
    show db = ({ rows := db.rows.map (mergedRow [] oid now), nextId := db.nextId } : DB)
    rw [hmap]
  | cons p ps ih =>
    intro db hnodup hsub hnolink hndo hoid
    have hprows := hsub p (List.mem_cons_self p ps)
    rw [List.map_cons, List.nodup_cons] at hndo
    obtain ⟨hpid_ps, hndps⟩ := hndo
    rw [List.map_cons] at hoid
    have hoid_p : oid ≠ p.id := fun he => hoid (he ▸ List.mem_cons_self _ _)
    have hoid_ps : oid ∉ ps.map (fun q => q.id) :=
      fun hm => hoid (List.mem_cons_of_mem _ hm)
    have hcomp : applyWrites (mergeWriteSeq (p :: ps) oid now) db
        = applyWrites (mergeWriteSeq ps oid now)
            (repointWrite p.id oid (demoteWrite p.id oid now db)) := rfl
    rw [hcomp]
    have hrows1 : (repointWrite p.id oid (demoteWrite p.id oid now db)).rows
        = db.rows.map (fun c => repointRow p.id oid (demoteRow p.id oid now c)) := by
      unfold repointWrite demoteWrite
      rw [List.map_map]
      rfl
    have hnext1 : (repointWrite p.id oid (demoteWrite p.id oid now db)).nextId
        = db.nextId := rfl
    have hid1 : ∀ c : Contact, (repointRow p.id oid (demoteRow p.id oid now c)).id = c.id := by
      intro c
      unfold repointRow demoteRow
      by_cases h1 : c.id = p.id
      · rw [if_pos h1]
        split
        · rfl
        · rfl
      · rw [if_neg h1]
        split
        · rfl
        · rfl
    -- the id of every q ∈ ps differs from p.id, so its row is untouched by this step
    have hps_ne : ∀ q ∈ ps, q.id ≠ p.id := by
      intro q hq he
      exact hpid_ps (he ▸ List.mem_map.mpr ⟨q, hq, rfl⟩)
    have hstep_fix : ∀ q ∈ ps, repointRow p.id oid (demoteRow p.id oid now q) = q := by
      intro q hq
      unfold repointRow demoteRow
      rw [if_neg (hps_ne q hq), if_neg]
      rw [hnolink q (List.mem_cons_of_mem p hq)]
      intro hx
      cases hx
    have ihres := ih ⟨db.rows.map (fun c => repointRow p.id oid (demoteRow p.id oid now c)),
        db.nextId⟩ ?nodup ?sub ?nolink hndps hoid_ps
    case nodup =>
      show (List.map (fun c => c.id)
        (db.rows.map (fun c => repointRow p.id oid (demoteRow p.id oid now c)))).Nodup
      rw [List.map_map]
      have : ((fun c => c.id) ∘ fun c => repointRow p.id oid (demoteRow p.id oid now c))
          = fun c : Contact => c.id := by
        funext c
        exact hid1 c
      rw [this]
      exact hnodup
    case sub =>
      intro q hq
      exact List.mem_map.mpr ⟨q, hsub q (List.mem_cons_of_mem p hq), hstep_fix q hq⟩
    case nolink =>
      intro q hq
      exact hnolink q (List.mem_cons_of_mem p hq)
    have hdbeq : repointWrite p.id oid (demoteWrite p.id oid now db)
        = ⟨db.rows.map (fun c => repointRow p.id oid (demoteRow p.id oid now c)),
            db.nextId⟩ := by
      cases hdb : repointWrite p.id oid (demoteWrite p.id oid now db) with
      | mk r n =>
        have h1 : r = db.rows.map (fun c => repointRow p.id oid (demoteRow p.id oid now c)) := by
          rw [← hrows1, hdb]
        have h2 : n = db.nextId := by
          rw [← hnext1, hdb]
        rw [h1, h2]
    rw [hdbeq]
    rw [ihres]
    rw [List.map_map]
    have hkey : ∀ c ∈ db.rows,
        (mergedRow (ps.map (fun q => q.id)) oid now ∘
          fun c => repointRow p.id oid (demoteRow p.id oid now c)) c
          = mergedRow (p.id :: ps.map (fun q => q.id)) oid now c := by
      intro c hc
      show mergedRow (ps.map (fun q => q.id)) oid now
          (repointRow p.id oid (demoteRow p.id oid now c))
        = mergedRow (p.id :: ps.map (fun q => q.id)) oid now c
      have hc_ps : c.id ∈ ps.map (fun q => q.id) → c.linkedId = none := by
        intro hin
        obtain ⟨q, hq, hqid⟩ := List.mem_map.mp hin
        have hqc : q = c := rows_id_inj hnodup (hsub q (List.mem_cons_of_mem p hq)) hc hqid
        rw [← hqc]
        exact hnolink q (List.mem_cons_of_mem p hq)
      by_cases h1 : c.id = p.id
      · -- c is the primary demoted by this step
        unfold demoteRow
        rw [if_pos h1]
        unfold repointRow
        have hnegcond : ¬ ({ c with linkedId := some oid, linkPrecedence := Precedence.secondary, updatedAt := now } : Contact).linkedId = some p.id := by
          simpa using hoid_p
        rw [if_neg hnegcond]
        have hLHS := @mergedRow_untouched (ps.map (fun q => q.id)) oid now
          { c with linkedId := some oid, linkPrecedence := Precedence.secondary, updatedAt := now }
          (by
            show c.id ∉ ps.map (fun q => q.id)
            rw [h1]
            exact hpid_ps)
          (by
            intro j hj
            have hjo : oid = j := by simpa using hj
            rw [← hjo]
            exact hoid_ps)
        rw [hLHS]
        unfold mergedRow
        rw [if_pos (show c.id ∈ p.id :: ps.map (fun q => q.id) from by
          rw [h1]
          exact List.mem_cons_self _ _)]
      · unfold demoteRow
        rw [if_neg h1]
        by_cases h2 : c.linkedId = some p.id
        · -- c is a dependent of the demoted primary: repointed by this step
          unfold repointRow
          rw [if_pos h2]
          have hcid_not : c.id ∉ ps.map (fun q => q.id) := by
            intro hin
            rw [hc_ps hin] at h2
            cases h2
          have hLHS := @mergedRow_untouched (ps.map (fun q => q.id)) oid now
            { c with linkedId := some oid }
            (show c.id ∉ ps.map (fun q => q.id) from hcid_not)
            (by
              intro j hj
              have hjo : oid = j := by simpa using hj
              rw [← hjo]
              exact hoid_ps)
          rw [hLHS]
          have hnotin : c.id ∉ p.id :: ps.map (fun q => q.id) := by
            intro hin
            rcases List.mem_cons.mp hin with hx | hx
            · exact h1 hx
            · exact hcid_not hx
          have hany : c.linkedId.any
              (fun j => decide (j ∈ p.id :: ps.map (fun q => q.id))) = true := by
            rw [h2]
            simp
          unfold mergedRow
          rw [if_neg hnotin, if_pos hany]
        · -- c is untouched by this step
          unfold repointRow
          rw [if_neg h2]
          by_cases hin : c.id ∈ ps.map (fun q => q.id)
          · unfold mergedRow
            rw [if_pos hin, if_pos (List.mem_cons_of_mem _ hin)]
          · have hnotin : c.id ∉ p.id :: ps.map (fun q => q.id) := by
              intro hx
              rcases List.mem_cons.mp hx with hy | hy
              · exact h1 hy
              · exact hin hy
            cases hl : c.linkedId with
            | none =>
              rw [mergedRow_untouched _ _ _ hin (fun j hj => by rw [hl] at hj; cases hj),
                mergedRow_untouched _ _ _ hnotin (fun j hj => by rw [hl] at hj; cases hj)]
            | some j =>
              have hjp : j ≠ p.id := by
                intro he
                exact h2 (he ▸ hl)
              by_cases hj : j ∈ ps.map (fun q => q.id)
              · have ha1 : c.linkedId.any
                    (fun k => decide (k ∈ ps.map (fun q => q.id))) = true := by
                  rw [hl]
                  simpa using hj
                have ha2 : c.linkedId.any
                    (fun k => decide (k ∈ p.id :: ps.map (fun q => q.id))) = true := by
                  rw [hl]
                  simpa using List.mem_cons_of_mem p.id hj
                unfold mergedRow
                rw [if_neg hin, if_neg hnotin, if_pos ha1, if_pos ha2]
              · rw [mergedRow_untouched _ _ _ hin (fun k hk => by
                    rw [hl] at hk
                    rwa [← Option.some.inj hk]),
                  mergedRow_untouched _ _ _ hnotin (fun k hk => by
                    rw [hl] at hk
                    rw [← Option.some.inj hk]
                    intro hx
                    rcases List.mem_cons.mp hx with hy | hy
                    · exact hjp hy
                    · exact hj hy)]
    rw [map_congr_mem db.rows _ _ hkey]
    rfl

theorem mergedRow_prec (otherIds : List Nat) (oid now : Nat) {c : Contact}
    (h1 : c.id ∉ otherIds) :
    (mergedRow otherIds oid now c).linkPrecedence = c.linkPrecedence := by
  unfold mergedRow
  rw [if_neg h1]
  by_cases h2 : c.linkedId.any (fun j => decide (j ∈ otherIds)) = true
  · rw [if_pos h2]
  · rw [if_neg h2]

theorem wf_mergedRows {db : DB} (h : WF db) (others : List Contact) (O : Contact) (now : Nat)
    (hO : O ∈ db.rows) (hOa : Alive O) (hOp : O.linkPrecedence = Precedence.primary)
    (hsub : ∀ p ∈ others, p ∈ db.rows)
    (halive : ∀ p ∈ others, Alive p)
    (hprim : ∀ p ∈ others, p.linkPrecedence = Precedence.primary)
    (hOid : O.id ∉ others.map (fun p => p.id)) :
    WF ⟨db.rows.map (mergedRow (others.map (fun p => p.id)) O.id now), db.nextId⟩ := by
  set oids := others.map (fun p => p.id) with hoids
  have hOlink : O.linkedId = none := wf_primNoLink h O hO hOa hOp
  have fOeq : mergedRow oids O.id now O = O :=
    mergedRow_untouched oids O.id now hOid (fun j hj => by rw [hOlink] at hj; cases hj)
  have hOmem : O ∈ db.rows.map (mergedRow oids O.id now) :=
    List.mem_map.mpr ⟨O, hO, fOeq⟩
  have hin_oids : ∀ {q : Contact}, q ∈ db.rows → q.id ∈ oids →
      Alive q ∧ q.linkPrecedence = Precedence.primary ∧ q.linkedId = none := by
    intro q hq hqin
    obtain ⟨p, hp, hpid⟩ := List.mem_map.mp hqin
    have hpq : p = q := rows_id_inj (wf_nodup h) (hsub p hp) hq hpid
    subst hpq
    exact ⟨halive p hp, hprim p hp, wf_primNoLink h p (hsub p hp) (halive p hp) (hprim p hp)⟩
  refine ⟨?_, ?_, ?_, ?_, ?_, ?_, ?_, ?_⟩
  · show (List.map (fun c => c.id) (db.rows.map (mergedRow oids O.id now))).Nodup
    rw [List.map_map]
    have hcongr : db.rows.map ((fun c => c.id) ∘ mergedRow oids O.id now)
        = db.rows.map (fun c : Contact => c.id) := by
      apply map_congr_mem
      intro c hc
      show (mergedRow oids O.id now c).id = c.id
      exact mergedRow_id oids O.id now c
    rw [hcongr]
    exact wf_nodup h
  · intro x hx
    obtain ⟨c, hc, hfc⟩ := List.mem_map.mp hx
    rw [← hfc, mergedRow_id]
    exact wf_idNz h c hc
  · intro x hx
    obtain ⟨c, hc, hfc⟩ := List.mem_map.mp hx
    rw [← hfc]
    show (mergedRow oids O.id now c).id < db.nextId
    rw [mergedRow_id]
    exact wf_idLt h c hc
  · show 0 < db.nextId
    exact wf_nextPos h
  · intro x hx hxa hxp
    obtain ⟨c, hc, hfc⟩ := List.mem_map.mp hx
    have hca : Alive c := by
      unfold Alive at hxa ⊢
      rw [← (mergedRow_fields oids O.id now c).2.2.2, hfc]
      exact hxa
    rcases mergedRow_cases oids O.id now c with ⟨hin, heq⟩ | ⟨hnin, hex, heq⟩ | ⟨hnin, hall, heq⟩
    · rw [← hfc, heq] at hxp
      cases hxp
    · obtain ⟨j, hj, hjin⟩ := hex
      rw [← hfc, heq] at hxp
      have hcp : c.linkPrecedence = Precedence.primary := hxp
      rw [wf_primNoLink h c hc hca hcp] at hj
      cases hj
    · rw [← hfc, heq] at hxp ⊢
      exact wf_primNoLink h c hc hca hxp
  · intro x hx hxa hxs
    obtain ⟨c, hc, hfc⟩ := List.mem_map.mp hx
    have hca : Alive c := by
      unfold Alive at hxa ⊢
      rw [← (mergedRow_fields oids O.id now c).2.2.2, hfc]
      exact hxa
    rcases mergedRow_cases oids O.id now c with ⟨hin, heq⟩ | ⟨hnin, hex, heq⟩ | ⟨hnin, hall, heq⟩
    · refine ⟨O, hOmem, ?_, hOa, hOp⟩
      rw [← hfc, heq]
    · refine ⟨O, hOmem, ?_, hOa, hOp⟩
      rw [← hfc, heq]
    · rw [← hfc, heq] at hxs ⊢
      obtain ⟨p, hp, hpl, hpa, hpp⟩ := wf_secLink h c hc hca hxs
      have hpnin : p.id ∉ oids := hall p.id hpl
      have hplink : p.linkedId = none := wf_primNoLink h p hp hpa hpp
      have fpeq : mergedRow oids O.id now p = p :=
        mergedRow_untouched oids O.id now hpnin (fun j hj => by rw [hplink] at hj; cases hj)
      exact ⟨p, List.mem_map.mpr ⟨p, hp, fpeq⟩, hpl, hpa, hpp⟩
  · intro x hx y hy hlink
    obtain ⟨c, hc, hfc⟩ := List.mem_map.mp hx
    obtain ⟨d, hd, hfd⟩ := List.mem_map.mp hy
    have hyid : y.id = d.id := by rw [← hfd, mergedRow_id]
    rcases mergedRow_cases oids O.id now c with ⟨hin, heq⟩ | ⟨hnin, hex, heq⟩ | ⟨hnin, hall, heq⟩
    · rw [← hfc, heq] at hlink
      have hdO : d.id = O.id := by
        have := hyid ▸ hlink
        simpa using this.symm
      have hdeq : d = O := rows_id_inj (wf_nodup h) hd hO hdO
      subst hdeq
      rw [← hfd, fOeq]
      exact hOp
    · rw [← hfc, heq] at hlink
      have hdO : d.id = O.id := by
        have := hyid ▸ hlink
        simpa using this.symm
      have hdeq : d = O := rows_id_inj (wf_nodup h) hd hO hdO
      subst hdeq
      rw [← hfd, fOeq]
      exact hOp
    · rw [← hfc, heq] at hlink
      have hcd : c.linkedId = some d.id := by rw [hlink, hyid]
      have hdp : d.linkPrecedence = Precedence.primary := wf_inv2 h c hc d hd hcd
      have hdnin : d.id ∉ oids := hall d.id hcd
      rw [← hfd, mergedRow_prec oids O.id now hdnin]
      exact hdp
  · intro x hx j hlink
    obtain ⟨c, hc, hfc⟩ := List.mem_map.mp hx
    rcases mergedRow_cases oids O.id now c with ⟨hin, heq⟩ | ⟨hnin, hex, heq⟩ | ⟨hnin, hall, heq⟩
    · rw [← hfc, heq] at hlink
      have hjO : O.id = j := by simpa using hlink
      exact ⟨O, hOmem, hjO⟩
    · rw [← hfc, heq] at hlink
      have hjO : O.id = j := by simpa using hlink
      exact ⟨O, hOmem, hjO⟩
    · rw [← hfc, heq] at hlink
      obtain ⟨d, hd, hdid⟩ := wf_linkEx h c hc j hlink
      refine ⟨mergedRow oids O.id now d, List.mem_map.mpr ⟨d, hd, rfl⟩, ?_⟩
      rw [mergedRow_id]
      exact hdid

/-- Adjacency of two live rows through one `linkedId` edge. -/
def LinkedAdj (db : DB) (a b : Contact) : Prop :=
  a ∈ db.rows ∧ b ∈ db.rows ∧ Alive a ∧ Alive b
    ∧ (a.linkedId = some b.id ∨ b.linkedId = some a.id)

/-- Two rows are in the same connected component of the live link graph. -/
def Connected (db : DB) : Contact → Contact → Prop :=
  Relation.ReflTransGen (LinkedAdj db)

/-- Invariant 3: within any connected component of live contacts there is
exactly one primary. -/
def Invariant3 (db : DB) : Prop :=
  ∀ c ∈ db.rows, Alive c → ∃! pid : Nat, ∃ p ∈ db.rows,
    p.id = pid ∧ Alive p ∧ p.linkPrecedence = Precedence.primary ∧ Connected db c p

/-- The root id a live row determines: its own id for a primary, its
`linkedId` for a secondary. -/
def rootO (c : Contact) : Option Nat :=
  match c.linkPrecedence with
  | Precedence.primary => some c.id
  | Precedence.secondary => c.linkedId

theorem rootO_primary {c : Contact} (h : c.linkPrecedence = Precedence.primary) :
    rootO c = some c.id := by
  unfold rootO
  rw [h]

theorem rootO_secondary {c : Contact} (h : c.linkPrecedence = Precedence.secondary) :
    rootO c = c.linkedId := by
  unfold rootO
  rw [h]

theorem adj_rootO {db : DB} (h : WF db) {a b : Contact} (hadj : LinkedAdj db a b) :
    rootO a = rootO b := by
  obtain ⟨ha, hb, haa, hba, hor⟩ := hadj
  rcases hor with hl | hl
  · have hbp : b.linkPrecedence = Precedence.primary := wf_inv2 h a ha b hb hl
    have has : a.linkPrecedence = Precedence.secondary := by
      cases hap : a.linkPrecedence with
      | primary =>
        rw [wf_primNoLink h a ha haa hap] at hl
        cases hl
      | secondary => rfl
    rw [rootO_secondary has, rootO_primary hbp, hl]
  · have hap : a.linkPrecedence = Precedence.primary := wf_inv2 h b hb a ha hl
    have hbs : b.linkPrecedence = Precedence.secondary := by
      cases hbp : b.linkPrecedence with
      | primary =>
        rw [wf_primNoLink h b hb hba hbp] at hl
        cases hl
      | secondary => rfl
    rw [rootO_secondary hbs, rootO_primary hap, hl]

theorem connected_rootO {db : DB} (h : WF db) {a b : Contact} (hc : Connected db a b) :
    rootO a = rootO b := by
  induction hc with
  | refl => rfl
  | tail hab hbc ih => exact ih.trans (adj_rootO h hbc)

theorem wf_invariant1 {db : DB} (h : WF db) : Invariant1 db := wf_secLink h

theorem wf_invariant3 {db : DB} (h : WF db) : Invariant3 db := by
  intro c hc hca
  cases hcp : c.linkPrecedence with
  | primary =>
    refine ⟨c.id, ⟨c, hc, rfl, hca, hcp, Relation.ReflTransGen.refl⟩, ?_⟩
    intro pid ⟨p, hp, hpid, hpa, hpp, hconn⟩
    have hroot := connected_rootO h hconn
    rw [rootO_primary hcp, rootO_primary hpp] at hroot
    rw [← hpid]
    exact (Option.some.inj hroot).symm
  | secondary =>
    obtain ⟨p, hp, hpl, hpa, hpp⟩ := wf_secLink h c hc hca hcp
    refine ⟨p.id, ⟨p, hp, rfl, hpa, hpp, ?_⟩, ?_⟩
    · exact Relation.ReflTransGen.single ⟨hc, hp, hca, hpa, Or.inl hpl⟩
    · intro pid ⟨q, hq, hqid, hqa, hqp, hconn⟩
      have hroot := connected_rootO h hconn
      rw [rootO_secondary hcp, rootO_primary hqp, hpl] at hroot
      rw [← hqid]
      exact (Option.some.inj hroot).symm

theorem fetchByIds_idnodup {db : DB} (hnd : (db.rows.map (fun c => c.id)).Nodup)
    (ids : List Nat) : ((fetchByIds db ids).map (fun c => c.id)).Nodup := by
  unfold fetchByIds
  have hperm := (sortByCreated_perm (db.rows.filter
    (fun c => ids.contains c.id && c.deletedAt == none))).map (fun c => c.id)
  rw [hperm.nodup_iff]
  exact List.Nodup.sublist ((List.filter_sublist _).map _) hnd

theorem getUniquePrimaries_mem {l : List Contact} (hnd : (l.map (fun c => c.id)).Nodup)
    (q : Contact) : q ∈ getUniquePrimaries l
      ↔ (q ∈ l ∧ q.linkPrecedence = Precedence.primary) := by
  rw [getUniquePrimaries_eq l hnd, mem_sortByCreated, List.mem_filter]
  simp

theorem getUniquePrimaries_idnodup {l : List Contact}
    (hnd : (l.map (fun c => c.id)).Nodup) :
    ((getUniquePrimaries l).map (fun c => c.id)).Nodup := by
  rw [getUniquePrimaries_eq l hnd]
  have hperm := (sortByCreated_perm (l.filter
    (fun c => decide (c.linkPrecedence = Precedence.primary)))).map (fun c => c.id)
  rw [hperm.nodup_iff]
  exact List.Nodup.sublist ((List.filter_sublist _).map _) hnd

theorem wf_identifyContact {db : DB} (h : WF db) (now : Nat) (E P : Option String)
    (r : IdentifyResponse) (db2 : DB)
    (hrun : identifyContact db now E P = some (r, db2)) : WF db2 := by
  obtain ⟨ids, related, hids, hrel, hfetch, hiff, hmem⟩ :=
    getAllRelatedContacts_spec db (findManyMatches db E P) (wf_nodup h)
      (wf_idNz h) (findManyMatches_subset db E P)
  have hrelnd : (related.map (fun c => c.id)).Nodup := by
    rw [hfetch]
    exact fetchByIds_idnodup (wf_nodup h) ids
  simp only [identifyContact, hrel] at hrun
  cases hup : getUniquePrimaries related with
  | nil =>
    simp only [hup] at hrun
    cases hbr : buildResponse [(createContact db now E P none Precedence.primary).1] with
    | none =>
      rw [hbr] at hrun
      cases hrun
    | some resp =>
      rw [hbr] at hrun
      have hpair := Option.some.inj hrun
      have hdb2 : (createContact db now E P none Precedence.primary).2 = db2 :=
        congrArg Prod.snd hpair
      rw [← hdb2]
      exact wf_createContact h now E P none Precedence.primary
        (by intro hx; cases hx) (fun _ => rfl)
  | cons p0 rest =>
    cases rest with
    | nil =>
      simp only [hup] at hrun
      have hp0 : p0 ∈ related ∧ p0.linkPrecedence = Precedence.primary :=
        (getUniquePrimaries_mem hrelnd p0).mp (hup ▸ List.mem_cons_self p0 [])
      have hp0row := (hmem p0).mp hp0.1
      by_cases hsc : shouldCreateSecondary
          (related.filter (fun c => c.id == p0.id || c.linkedId == some p0.id)) E P = true
      · rw [if_pos hsc] at hrun
        cases hbr : buildResponse
            ((related.filter (fun c => c.id == p0.id || c.linkedId == some p0.id))
              ++ [(createContact db now E P (some p0.id) Precedence.secondary).1]) with
        | none =>
          rw [hbr] at hrun
          cases hrun
        | some resp =>
          rw [hbr] at hrun
          have hpair := Option.some.inj hrun
          have hdb2 : (createContact db now E P (some p0.id) Precedence.secondary).2 = db2 :=
            congrArg Prod.snd hpair
          rw [← hdb2]
          exact wf_createContact h now E P (some p0.id) Precedence.secondary
            (fun _ => ⟨p0, hp0row.1, rfl, hp0row.2.1, hp0.2⟩) (by intro hx; cases hx)
      · rw [if_neg hsc] at hrun
        cases hbr : buildResponse
            (related.filter (fun c => c.id == p0.id || c.linkedId == some p0.id)) with
        | none =>
          rw [hbr] at hrun
          cases hrun
        | some resp =>
          rw [hbr] at hrun
          have hpair := Option.some.inj hrun
          have hdb2 : db = db2 := congrArg Prod.snd hpair
          rw [← hdb2]
          exact h
    | cons p1 ps =>
      simp only [hup] at hrun
      simp only [mergePrimaries] at hrun
      have hplist : ∀ q ∈ p0 :: p1 :: ps,
          q ∈ related ∧ q.linkPrecedence = Precedence.primary := by
        intro q hq
        exact (getUniquePrimaries_mem hrelnd q).mp (hup ▸ hq)
      have hO := reduceOldest_mem p0 (p1 :: ps)
      have hOfacts := hplist _ hO
      have hOrow := (hmem _).mp hOfacts.1
      set O := reduceOldest p0 (p1 :: ps) with hOdef
      set others := (p0 :: p1 :: ps).filter (fun p => decide (p.id ≠ O.id)) with hothers
      have hothers_facts : ∀ q ∈ others, q ∈ db.rows ∧ Alive q
          ∧ q.linkPrecedence = Precedence.primary ∧ q.id ≠ O.id := by
        intro q hq
        rw [hothers, List.mem_filter] at hq
        have hqf := hplist q hq.1
        have hqrow := (hmem q).mp hqf.1
        exact ⟨hqrow.1, hqrow.2.1, hqf.2, by simpa using hq.2⟩
      have hothers_nd : (others.map (fun p => p.id)).Nodup := by
        have hlist_nd : ((p0 :: p1 :: ps).map (fun p => p.id)).Nodup :=
          hup ▸ getUniquePrimaries_idnodup hrelnd
        exact List.Nodup.sublist ((List.filter_sublist _).map _) hlist_nd
      have hOid_not : O.id ∉ others.map (fun p => p.id) := by
        intro hin
        obtain ⟨q, hq, hqid⟩ := List.mem_map.mp hin
        exact (hothers_facts q hq).2.2.2 hqid
      have hmrg := applyWrites_merge O.id now others db (wf_nodup h)
        (fun p hp => (hothers_facts p hp).1)
        (fun p hp => wf_primNoLink h p (hothers_facts p hp).1 (hothers_facts p hp).2.1
          (hothers_facts p hp).2.2.1)
        hothers_nd hOid_not
      rw [hmrg] at hrun
      have hwfM : WF ⟨db.rows.map (mergedRow (others.map (fun p => p.id)) O.id now),
          db.nextId⟩ :=
        wf_mergedRows h others O now hOrow.1 hOrow.2.1 hOfacts.2
          (fun p hp => (hothers_facts p hp).1)
          (fun p hp => (hothers_facts p hp).2.1)
          (fun p hp => (hothers_facts p hp).2.2.1)
          hOid_not
      set dbM : DB := ⟨db.rows.map (mergedRow (others.map (fun p => p.id)) O.id now),
          db.nextId⟩ with hdbM
      have hOinM : O ∈ dbM.rows := by
        rw [hdbM]
        refine List.mem_map.mpr ⟨O, hOrow.1, ?_⟩
        exact mergedRow_untouched _ _ _ hOid_not
          (fun j hj => by
            rw [wf_primNoLink h O hOrow.1 hOrow.2.1 hOfacts.2] at hj
            cases hj)
      by_cases hsc : shouldCreateSecondary (refetchFamily dbM O.id) E P = true
      · rw [if_pos hsc] at hrun
        cases hbr : buildResponse (refetchFamily dbM O.id
            ++ [(createContact dbM now E P (some O.id) Precedence.secondary).1]) with
        | none =>
          rw [hbr] at hrun
          cases hrun
        | some resp =>
          rw [hbr] at hrun
          have hpair := Option.some.inj hrun
          have hdb2 : (createContact dbM now E P (some O.id) Precedence.secondary).2 = db2 :=
            congrArg Prod.snd hpair
          rw [← hdb2]
          exact wf_createContact hwfM now E P (some O.id) Precedence.secondary
            (fun _ => ⟨O, hOinM, rfl, hOrow.2.1, hOfacts.2⟩) (by intro hx; cases hx)
      · rw [if_neg hsc] at hrun
        cases hbr : buildResponse (refetchFamily dbM O.id) with
        | none =>
          rw [hbr] at hrun
          cases hrun
        | some resp =>
          rw [hbr] at hrun
          have hpair := Option.some.inj hrun
          have hdb2 : dbM = db2 := congrArg Prod.snd hpair
          rw [← hdb2]
          exact hwfM

/-- **C3** (confirmed). Starting from any store satisfying the data-model
invariants, a completed identify request (with at least one identifier)
leaves a store in which every live secondary's `linkedId` resolves to a
non-deleted primary, no contact's `linkedId` references a secondary, and
every live connected component has exactly one primary. -/
theorem claim3_invariants_preserved (db : DB) (now : Nat) (E P : Option String)
    (h : WF db) (_hid : isTruthy E = true ∨ isTruthy P = true)
    (r : IdentifyResponse) (db2 : DB)
    (hrun : identifyContact db now E P = some (r, db2)) :
    Invariant1 db2 ∧ Invariant2 db2 ∧ Invariant3 db2 :=
  have h2 : WF db2 := wf_identifyContact h now E P r db2 hrun
  ⟨wf_invariant1 h2, wf_inv2 h2, wf_invariant3 h2⟩

/-- Witness for C3: a request against the empty store. -/
theorem claim3_witness :
    Invariant1 ⟨[⟨1, some "a", none, none, Precedence.primary, 7, 7, none⟩], 2⟩
    ∧ Invariant2 ⟨[⟨1, some "a", none, none, Precedence.primary, 7, 7, none⟩], 2⟩
    ∧ Invariant3 ⟨[⟨1, some "a", none, none, Precedence.primary, 7, 7, none⟩], 2⟩ :=
  claim3_invariants_preserved ⟨[], 1⟩ 7 (some "a") none (by decide) (Or.inl (by decide))
    ⟨1, ["a"], [], []⟩ ⟨[⟨1, some "a", none, none, Precedence.primary, 7, 7, none⟩], 2⟩ rfl

/-! ## C1: merge correctness on the two-family scenario -/

theorem perm_pair {l : List Contact} {x y : Contact} (h : List.Perm l [x, y]) :
    l = [x, y] ∨ l = [y, x] := by
  obtain ⟨a, b, hab⟩ := List.length_eq_two.mp (by simpa using h.length_eq)
  subst hab
  have hax : a ∈ [x, y] := h.mem_iff.mp (List.mem_cons_self a [b])
  rcases List.mem_cons.mp hax with ha | ha
  · subst ha
    have hby : List.Perm [b] [y] := (List.perm_cons a).mp h
    have : b = y := by simpa using hby.mem_iff.mp (List.mem_cons_self b [])
    subst this
    exact Or.inl rfl
  · rw [List.mem_singleton] at ha
    subst ha
    have hswap : List.Perm [a, b] [a, x] := h.trans (List.Perm.swap a x [])
    have hbx : List.Perm [b] [x] := (List.perm_cons a).mp hswap
    have : b = x := by simpa using hbx.mem_iff.mp (List.mem_cons_self b [])
    subst this
    exact Or.inr rfl

theorem find?_unique_primary {l : List Contact} {a : Contact}
    (ha : a ∈ l) (hap : a.linkPrecedence = Precedence.primary)
    (huniq : ∀ b ∈ l, b.linkPrecedence = Precedence.primary → b = a) :
    l.find? (fun c => decide (c.linkPrecedence = Precedence.primary)) = some a :=
  find?_eq_of_unique _ l a ha (by simpa using hap)
    (fun b hb hpb => huniq b hb (by simpa using hpb))

set_option maxHeartbeats 1000000

/-- **C1** (confirmed). On the two-family store — primary A (createdAt
t1) with secondary A1, and independent primary B (createdAt t2 > t1)
with secondary B1 — a request whose email matches A and whose phone
matches B completes, demotes B to a secondary linked to A, repoints
B1 to A, and answers with primaryContactId = A.id and
secondaryContactIds containing B.id, A1.id and B1.id. -/
theorem claim1_merge_correct (idA idA1 idB idB1 : Nat) (ea pb : String)
    (pA e1 q1 eB e4 q4 : Option String) (t1 t2 tA1 tB1 uA u1 uB u2 nid now : Nat)
    (hd1 : idA ≠ idA1) (hd2 : idA ≠ idB) (hd3 : idA ≠ idB1)
    (hd4 : idA1 ≠ idB) (hd5 : idA1 ≠ idB1) (hd6 : idB ≠ idB1)
    (hz1 : idA ≠ 0) (hz2 : idA1 ≠ 0) (hz3 : idB ≠ 0) (hz4 : idB1 ≠ 0)
    (ht : t1 < t2) (hea : ea ≠ "") (hpb : pb ≠ "") :
    ∃ r db2, identifyContact
      ⟨[⟨idA, some ea, pA, none, Precedence.primary, t1, uA, none⟩,
        ⟨idA1, e1, q1, some idA, Precedence.secondary, tA1, u1, none⟩,
        ⟨idB, eB, some pb, none, Precedence.primary, t2, uB, none⟩,
        ⟨idB1, e4, q4, some idB, Precedence.secondary, tB1, u2, none⟩], nid⟩
      now (some ea) (some pb) = some (r, db2)
    ∧ (∃ c ∈ db2.rows, c.id = idB ∧ c.linkPrecedence = Precedence.secondary
        ∧ c.linkedId = some idA)
    ∧ (∃ c ∈ db2.rows, c.id = idB1 ∧ c.linkedId = some idA)
    ∧ r.primaryContactId = idA
    ∧ idB ∈ r.secondaryContactIds
    ∧ idA1 ∈ r.secondaryContactIds
    ∧ idB1 ∈ r.secondaryContactIds := by
  set A : Contact := ⟨idA, some ea, pA, none, Precedence.primary, t1, uA, none⟩ with hA
  set A1 : Contact := ⟨idA1, e1, q1, some idA, Precedence.secondary, tA1, u1, none⟩ with hA1
  set B : Contact := ⟨idB, eB, some pb, none, Precedence.primary, t2, uB, none⟩ with hB
  set B1 : Contact := ⟨idB1, e4, q4, some idB, Precedence.secondary, tB1, u2, none⟩ with hB1
  set db4 : DB := ⟨[A, A1, B, B1], nid⟩ with hdb4
  have hnodup : (db4.rows.map (fun c => c.id)).Nodup := by
    show ([idA, idA1, idB, idB1] : List Nat).Nodup
    simp [List.nodup_cons, hd1, hd2, hd3, hd4, hd5, hd6]
  have hnz : ∀ c ∈ db4.rows, c.id ≠ 0 := by
    intro c hc
    simp [hdb4, hA, hA1, hB, hB1] at hc
    rcases hc with rfl | rfl | rfl | rfl <;> assumption
  obtain ⟨ids, related, hids, hrel, hfetch, hiff, hmem⟩ :=
    getAllRelatedContacts_spec db4 (findManyMatches db4 (some ea) (some pb)) hnodup hnz
      (findManyMatches_subset db4 (some ea) (some pb))
  have hArows : A ∈ db4.rows := by simp [hdb4]
  have hA1rows : A1 ∈ db4.rows := by simp [hdb4]
  have hBrows : B ∈ db4.rows := by simp [hdb4]
  have hB1rows : B1 ∈ db4.rows := by simp [hdb4]
  have hAmatch : A ∈ findManyMatches db4 (some ea) (some pb) := by
    unfold findManyMatches
    rw [mem_sortByCreated, List.mem_filter]
    refine ⟨hArows, ?_⟩
    simp [contactMatches, isTruthy, hA, hea]
  have hBmatch : B ∈ findManyMatches db4 (some ea) (some pb) := by
    unfold findManyMatches
    rw [mem_sortByCreated, List.mem_filter]
    refine ⟨hBrows, ?_⟩
    simp [contactMatches, isTruthy, hB, hpb]
  set seedIds := (findManyMatches db4 (some ea) (some pb)).map (fun c => c.id) with hseedIds
  have hreachA : ReachesId db4 seedIds idA :=
    ReachesId.seed (List.mem_map.mpr ⟨A, hAmatch, rfl⟩)
  have hreachB : ReachesId db4 seedIds idB :=
    ReachesId.seed (List.mem_map.mpr ⟨B, hBmatch, rfl⟩)
  have hreachA1 : ReachesId db4 seedIds idA1 :=
    ReachesId.down A A1 hreachA hArows rfl rfl hA1rows rfl rfl
  have hreachB1 : ReachesId db4 seedIds idB1 :=
    ReachesId.down B B1 hreachB hBrows rfl rfl hB1rows rfl rfl
  have hfilter : db4.rows.filter (fun c => ids.contains c.id && c.deletedAt == none)
      = db4.rows := by
    rw [List.filter_eq_self]
    intro c hc
    simp [hdb4, hA, hA1, hB, hB1] at hc
    rcases hc with rfl | rfl | rfl | rfl <;> simp <;>
      first
        | exact (hiff idA).mpr hreachA
        | exact (hiff idA1).mpr hreachA1
        | exact (hiff idB).mpr hreachB
        | exact (hiff idB1).mpr hreachB1
  have hrelated : related = sortByCreated db4.rows := by
    rw [hfetch]
    unfold fetchByIds
    rw [hfilter]
  have hrelnd : (related.map (fun c => c.id)).Nodup := by
    rw [hfetch]
    exact fetchByIds_idnodup hnodup ids
  have hfilterprim : db4.rows.filter
      (fun c => decide (c.linkPrecedence = Precedence.primary)) = [A, B] := by
    simp [hdb4, hA, hA1, hB, hB1]
  have hprimperm : List.Perm (related.filter
      (fun c => decide (c.linkPrecedence = Precedence.primary))) [A, B] := by
    rw [hrelated]
    have hp := (sortByCreated_perm db4.rows).filter
      (fun c => decide (c.linkPrecedence = Precedence.primary))
    rw [hfilterprim] at hp
    exact hp
  have hprimsorted : (related.filter
      (fun c => decide (c.linkPrecedence = Precedence.primary))).Pairwise
      (fun a b => a.createdAt ≤ b.createdAt) := by
    rw [hrelated]
    exact (sortByCreated_pairwise db4.rows).filter _
  have hprimlist : related.filter
      (fun c => decide (c.linkPrecedence = Precedence.primary)) = [A, B] := by
    rcases perm_pair hprimperm with heq | heq
    · exact heq
    · exfalso
      rw [heq] at hprimsorted
      rw [List.pairwise_cons] at hprimsorted
      have := hprimsorted.1 A (List.mem_cons_self A [])
      have hBA : B.createdAt ≤ A.createdAt := this
      simp [hA, hB] at hBA
      omega
  have hprimaries : getUniquePrimaries related = [A, B] := by
    rw [getUniquePrimaries_eq related hrelnd, hprimlist]
    simp [sortByCreated, insertByCreated, hA, hB, show ¬ t2 < t1 from by omega]
  have hident : identifyContact db4 now (some ea) (some pb)
      = mergePrimaries [A, B] related (some ea) (some pb) db4 now := by
    simp only [identifyContact, hrel, hprimaries]
  set Bp : Contact := ⟨idB, eB, some pb, some idA, Precedence.secondary, t2, now, none⟩
    with hBp
  set B1p : Contact := ⟨idB1, e4, q4, some idA, Precedence.secondary, tB1, u2, none⟩
    with hB1p
  have hO : reduceOldest A [B] = A := by
    simp [reduceOldest, hA, hB, show ¬ t2 < t1 from by omega]
  have hothersEq : [A, B].filter (fun p => decide (p.id ≠ A.id)) = [B] := by
    simp [hA, hB, Ne.symm hd2]
  have hdb1 : applyWrites (mergeWriteSeq [B] A.id now) db4 = ⟨[A, A1, Bp, B1p], nid⟩ := by
    show repointWrite B.id A.id (demoteWrite B.id A.id now db4) = _
    unfold demoteWrite repointWrite
    simp [hdb4, hA, hA1, hB, hB1, hBp, hB1p, demoteRow, repointRow, hd2, hd4,
      Ne.symm hd2, Ne.symm hd4, Ne.symm hd6]
  have hrefetch : refetchFamily ⟨[A, A1, Bp, B1p], nid⟩ A.id
      = sortByCreated [A, A1, Bp, B1p] := by
    unfold refetchFamily
    congr 1
    rw [List.filter_eq_self]
    intro c hc
    simp at hc
    rcases hc with rfl | rfl | rfl | rfl <;> simp [hA, hA1, hBp, hB1p]
  set fam := sortByCreated [A, A1, Bp, B1p] with hfam
  have hfam_mem : ∀ c, c ∈ fam ↔ (c = A ∨ c = A1 ∨ c = Bp ∨ c = B1p) := by
    intro c
    rw [hfam, mem_sortByCreated]
    simp
  have hfindA : fam.find? (fun c => decide (c.linkPrecedence = Precedence.primary))
      = some A := by
    refine find?_unique_primary ((hfam_mem A).mpr (Or.inl rfl)) (by rw [hA]) ?_
    intro b hb hbp
    rcases (hfam_mem b).mp hb with rfl | rfl | rfl | rfl
    · rfl
    · rw [hA1] at hbp
      cases hbp
    · rw [hBp] at hbp
      cases hbp
    · rw [hB1p] at hbp
      cases hbp
  have hsecmem : ∀ x ∈ [A1, Bp, B1p], x ∈ fam.filter
      (fun c => decide (c.linkPrecedence = Precedence.secondary)) := by
    intro x hx
    rw [List.mem_filter]
    simp at hx
    rcases hx with rfl | rfl | rfl
    · exact ⟨(hfam_mem A1).mpr (Or.inr (Or.inl rfl)), by rw [hA1]; simp⟩
    · exact ⟨(hfam_mem Bp).mpr (Or.inr (Or.inr (Or.inl rfl))), by rw [hBp]; simp⟩
    · exact ⟨(hfam_mem B1p).mpr (Or.inr (Or.inr (Or.inr rfl))), by rw [hB1p]; simp⟩
  have hmergeEq : mergePrimaries [A, B] related (some ea) (some pb) db4 now
      = (if shouldCreateSecondary fam (some ea) (some pb) then
          (buildResponse (fam ++ [(createContact ⟨[A, A1, Bp, B1p], nid⟩ now (some ea)
              (some pb) (some A.id) Precedence.secondary).1])).map
            (fun r => (r, (createContact ⟨[A, A1, Bp, B1p], nid⟩ now (some ea) (some pb)
              (some A.id) Precedence.secondary).2))
        else (buildResponse fam).map (fun r => (r, (⟨[A, A1, Bp, B1p], nid⟩ : DB)))) := by
    simp only [mergePrimaries]
    rw [hO, hothersEq, hdb1, hrefetch]
  by_cases hsc : shouldCreateSecondary fam (some ea) (some pb) = true
  · set NC : Contact := (createContact ⟨[A, A1, Bp, B1p], nid⟩ now (some ea) (some pb)
      (some A.id) Precedence.secondary).1 with hNC
    have hfind2 : (fam ++ [NC]).find?
        (fun c => decide (c.linkPrecedence = Precedence.primary)) = some A := by
      refine find?_unique_primary (List.mem_append.mpr (Or.inl
        ((hfam_mem A).mpr (Or.inl rfl)))) (by rw [hA]) ?_
      intro b hb hbp
      rcases List.mem_append.mp hb with hb1 | hb2
      · rcases (hfam_mem b).mp hb1 with rfl | rfl | rfl | rfl
        · rfl
        · rw [hA1] at hbp
          cases hbp
        · rw [hBp] at hbp
          cases hbp
        · rw [hB1p] at hbp
          cases hbp
      · rw [List.mem_singleton] at hb2
        subst hb2
        rw [hNC] at hbp
        cases hbp
    have hbuild : ∃ resp, buildResponse (fam ++ [NC]) = some resp
        ∧ resp.primaryContactId = A.id
        ∧ resp.secondaryContactIds = ((fam ++ [NC]).filter
            (fun c => decide (c.linkPrecedence = Precedence.secondary))).map
            (fun c => c.id) := by
      unfold buildResponse
      rw [hfind2]
      exact ⟨_, rfl, rfl, rfl⟩
    obtain ⟨resp, hresp, hrpid, hrsec⟩ := hbuild
    refine ⟨resp, ⟨[A, A1, Bp, B1p] ++ [NC], nid + 1⟩, ?_, ?_, ?_, ?_, ?_, ?_, ?_⟩
    · rw [hident, hmergeEq, if_pos hsc, hresp]
      rfl
    · exact ⟨Bp, by simp, by rw [hBp], by rw [hBp], by rw [hBp]⟩
    · exact ⟨B1p, by simp, by rw [hB1p], by rw [hB1p]⟩
    · rw [hrpid, hA]
    · rw [hrsec]
      refine List.mem_map.mpr ⟨Bp, ?_, by rw [hBp]⟩
      exact List.mem_filter.mpr ⟨List.mem_append.mpr (Or.inl
        ((hfam_mem Bp).mpr (Or.inr (Or.inr (Or.inl rfl))))), by rw [hBp]; simp⟩
    · rw [hrsec]
      refine List.mem_map.mpr ⟨A1, ?_, by rw [hA1]⟩
      exact List.mem_filter.mpr ⟨List.mem_append.mpr (Or.inl
        ((hfam_mem A1).mpr (Or.inr (Or.inl rfl)))), by rw [hA1]; simp⟩
    · rw [hrsec]
      refine List.mem_map.mpr ⟨B1p, ?_, by rw [hB1p]⟩
      exact List.mem_filter.mpr ⟨List.mem_append.mpr (Or.inl
        ((hfam_mem B1p).mpr (Or.inr (Or.inr (Or.inr rfl))))), by rw [hB1p]; simp⟩
  · have hbuild : ∃ resp, buildResponse fam = some resp
        ∧ resp.primaryContactId = A.id
        ∧ resp.secondaryContactIds = (fam.filter
            (fun c => decide (c.linkPrecedence = Precedence.secondary))).map
            (fun c => c.id) := by
      unfold buildResponse
      rw [hfindA]
      exact ⟨_, rfl, rfl, rfl⟩
    obtain ⟨resp, hresp, hrpid, hrsec⟩ := hbuild
    refine ⟨resp, ⟨[A, A1, Bp, B1p], nid⟩, ?_, ?_, ?_, ?_, ?_, ?_, ?_⟩
    · rw [hident, hmergeEq, if_neg hsc, hresp]
      rfl
    · exact ⟨Bp, by simp, by rw [hBp], by rw [hBp], by rw [hBp]⟩
    · exact ⟨B1p, by simp, by rw [hB1p], by rw [hB1p]⟩
    · rw [hrpid, hA]
    · rw [hrsec]
      refine List.mem_map.mpr ⟨Bp, ?_, by rw [hBp]⟩
      exact List.mem_filter.mpr ⟨(hfam_mem Bp).mpr (Or.inr (Or.inr (Or.inl rfl))),
        by rw [hBp]; simp⟩
    · rw [hrsec]
      refine List.mem_map.mpr ⟨A1, ?_, by rw [hA1]⟩
      exact List.mem_filter.mpr ⟨(hfam_mem A1).mpr (Or.inr (Or.inl rfl)),
        by rw [hA1]; simp⟩
    · rw [hrsec]
      refine List.mem_map.mpr ⟨B1p, ?_, by rw [hB1p]⟩
      exact List.mem_filter.mpr ⟨(hfam_mem B1p).mpr (Or.inr (Or.inr (Or.inr rfl))),
        by rw [hB1p]; simp⟩

/-- Witness for C1 at concrete ids, timestamps and identifiers. -/
theorem claim1_witness :
    ∃ r db2, identifyContact
      ⟨[⟨1, some "a", none, none, Precedence.primary, 0, 10, none⟩,
        ⟨2, some "a1", none, some 1, Precedence.secondary, 1, 11, none⟩,
        ⟨3, none, some "p", none, Precedence.primary, 2, 12, none⟩,
        ⟨4, some "q", none, some 3, Precedence.secondary, 3, 13, none⟩], 5⟩
      20 (some "a") (some "p") = some (r, db2)
    ∧ (∃ c ∈ db2.rows, c.id = 3 ∧ c.linkPrecedence = Precedence.secondary
        ∧ c.linkedId = some 1)
    ∧ (∃ c ∈ db2.rows, c.id = 4 ∧ c.linkedId = some 1)
    ∧ r.primaryContactId = 1
    ∧ 3 ∈ r.secondaryContactIds
    ∧ 2 ∈ r.secondaryContactIds
    ∧ 4 ∈ r.secondaryContactIds :=
  claim1_merge_correct 1 2 3 4 "a" "p" none (some "a1") none none (some "q") none
    0 2 1 3 10 11 12 13 5 20
    (by decide) (by decide) (by decide) (by decide) (by decide) (by decide)
    (by decide) (by decide) (by decide) (by decide) (by decide)
    (by decide) (by decide)

/-! ## C4: idempotence of a satisfied request -/

